import Mathlib

/-!
Shallow embedding of the geomarket-dds-bot core (src/bot.py, src/sheet_service.py)
and proofs about it.

Modelling conventions:
* Python strings are `String`; the char-level helpers below reimplement the string
  operations the source uses (`str.strip`, `str.lower`, `str.split`, `in`,
  `startswith`), so that everything reduces inside the kernel.
* Money and percent values are exact rationals (`ℚ`).  Python's `round(x, 2)` is
  modelled as decimal rounding to 2 places, half to even (`round2`), and
  `int(x)` as truncation toward zero (`pyTrunc`).
* The spreadsheet register is a list of rows; index 0 is the header row, matching
  the `range(1, ...)` loops in `sheet_service.py`.  An amount cell is modelled by
  its parsed numeric value (`Option ℚ`, `none` = empty/unparsable cell), i.e. the
  result of `DDSSheetService._parse_number` on the cell text.
* Remote calls are assumed to succeed; the `try/except` fallbacks of the source
  are not taken in the modelled runs.
-/

namespace DDS

/-- Whitespace predicate used by the embedded `str.strip` / `str.split`. -/
def isWs (c : Char) : Bool := c.isWhitespace

/-- Core of `str.strip`: drop whitespace from both ends of a char list. -/
def stripList (l : List Char) : List Char :=
  ((l.dropWhile isWs).reverse.dropWhile isWs).reverse

/-- Embeds Python `str.strip()`. -/
def pyStrip (s : String) : String := (stripList s.data).asString

/-- Embeds Python `str.lower()` for the alphabets the source uses
(ASCII and Cyrillic, including Ё). -/
def ruLowerChar (c : Char) : Char :=
  if 'A' ≤ c ∧ c ≤ 'Z' then Char.ofNat (c.toNat + 32)
  else if 'А' ≤ c ∧ c ≤ 'Я' then Char.ofNat (c.toNat + 32)
  else if c = 'Ё' then 'ё'
  else c

/-- Embeds Python `str.lower()` (see `ruLowerChar`). -/
def pyLower (s : String) : String := (s.data.map ruLowerChar).asString

/-- Helper for `str.split()` with no separator: split on whitespace runs,
dropping empty pieces.  `acc` is the current word, reversed. -/
def splitWsAux : List Char → List Char → List (List Char)
  | [], acc => if acc.isEmpty then [] else [acc.reverse]
  | c :: cs, acc =>
    if isWs c then
      if acc.isEmpty then splitWsAux cs [] else acc.reverse :: splitWsAux cs []
    else splitWsAux cs (c :: acc)

/-- Embeds Python `str.split()` (no argument: split on whitespace runs). -/
def pySplitWs (s : String) : List String := (splitWsAux s.data []).map List.asString

/-- Helper for `" ".join`: interleave single spaces. -/
def joinWordsAux : List (List Char) → List Char
  | [] => []
  | [w] => w
  | w :: ws => w ++ ' ' :: joinWordsAux ws

/-- Embeds Python `" ".join(words)`. -/
def joinWords (ws : List String) : String := (joinWordsAux (ws.map String.data)).asString

/-- Embeds `s.replace(",", ".")`. -/
def replaceCommaDot (s : String) : String :=
  (s.data.map (fun c => if c = ',' then '.' else c)).asString

/-- Embeds Python `needle in hay` on strings (substring containment). -/
def isInfixB (needle hay : List Char) : Bool := decide (needle <:+: hay)

/-- Value of a digit list read in base 10. -/
def digitsVal (l : List Char) : ℕ := l.foldl (fun a c => a * 10 + (c.toNat - 48)) 0

/-- Embeds Python `float(s)` on a string that contains only digits, `.` and a
possible leading `-` (the only shapes that survive the `re.sub` in
`_parse_amount`): at most one dot, at least one digit. -/
def pyFloatCore (s : List Char) : Option ℚ :=
  if s.all (fun c => c.isDigit || c == '.') && decide (s.count '.' ≤ 1)
      && s.any Char.isDigit then
    let intPart := s.takeWhile (fun c => c ≠ '.')
    let fracPart := (s.dropWhile (fun c => c ≠ '.')).drop 1
    some ((digitsVal intPart : ℚ) + (digitsVal fracPart : ℚ) / (10 ^ fracPart.length))
  else none

/-- Sign handling of `float(s)`: one optional leading minus. -/
def pyFloatSigned : List Char → Option ℚ
  | '-' :: rest => (pyFloatCore rest).map Neg.neg
  | s => pyFloatCore s

/-- Embeds `sheet_service._parse_amount` (= `DDSSheetService.parse_amount`):
strip, drop spaces, comma to dot, keep only digits / dot / minus, `float`. -/
def parse_amount (text : String) : Option ℚ :=
  if (pyStrip text).data.isEmpty then none
  else
    let cleaned :=
      (((pyStrip text).data.filter (fun c => c ≠ ' ')).map
          (fun c => if c = ',' then '.' else c)).filter
        (fun c => c.isDigit || c == '.' || c == '-')
    pyFloatSigned cleaned

/-- Embeds `DDSSheetService._parse_number` (same pipeline as `_parse_amount`). -/
def parse_number (text : String) : Option ℚ := parse_amount text

/-! ### Rounding primitives (bot.py `_run_funds_logic`, Python `round` / `int`) -/

/-- Round a rational to the nearest integer, half to even: the decimal-exact
model of Python `round(x)`. -/
def rhe (q : ℚ) : ℤ :=
  if q - ⌊q⌋ = 1 / 2 then (if ⌊q⌋ % 2 = 0 then ⌊q⌋ else ⌊q⌋ + 1) else ⌊q + 1 / 2⌋

/-- Model of Python `round(x, 2)`: round to two decimal places, half to even. -/
def round2 (q : ℚ) : ℚ := (rhe (q * 100) : ℚ) / 100

/-- Model of Python `int(x)`: truncation toward zero. -/
def pyTrunc (q : ℚ) : ℤ := if 0 ≤ q then ⌊q⌋ else ⌈q⌉

/-- Embeds the per-rule rounding in `_run_funds_logic`:
`to_transfer = int(raw + 0.5) if raw >= 0 else int(raw - 0.5)` with
`raw = new_revenue * percent / 100`. -/
def ruleTransfer (newRevenue percent : ℚ) : ℤ :=
  let raw := newRevenue * percent / 100
  if 0 ≤ raw then pyTrunc (raw + 1 / 2) else pyTrunc (raw - 1 / 2)

/-! ### The ledger register (sheet_service.py) -/

/-- One row of the register sheet, restricted to the columns C–I the system
reads and writes.  The amount cell carries its parsed numeric value
(`none` = empty or unparsable cell). -/
structure RegRow where
  date : String
  amount : Option ℚ
  wallet : String
  direction : String
  counterparty : String
  purpose : String
  article : String
deriving DecidableEq

/-- Parsed amount of a row, `0` when the cell is empty. -/
def amountOf (r : RegRow) : ℚ := r.amount.getD 0

/-- Embeds `_is_transfer_article`: the article name, stripped and lowered,
contains both «перевод» and «счетами». -/
def is_transfer_article (name : String) : Bool :=
  let n := pyLower (pyStrip name)
  isInfixB "перевод".data n.data && isInfixB "счетами".data n.data

/-- Embeds `get_transfer_articles` applied to the two fetched article lists:
first transfer-style article of each group, or `none` where the source raises. -/
def get_transfer_articles (outArticles inArticles : List String) :
    Option (String × String) :=
  match outArticles.find? is_transfer_article, inArticles.find? is_transfer_article with
  | some o, some i => some (o, i)
  | _, _ => none

/-- Row filter of `get_daily_income`: date matches, parsed amount positive, and
the article is not the inter-wallet-transfer inflow article (`artIn`; the empty
string models the `article_in_transfer = None` fallback, which disables the
exclusion, per Python truthiness). -/
def rowIncomeOk (artIn date : String) (r : RegRow) : Bool :=
  pyStrip r.date == pyStrip date
    && (match r.amount with | none => false | some a => decide (0 < a))
    && !(artIn != "" && pyStrip r.article == artIn)

/-- Embeds `get_daily_income`: sum of qualifying amounts over the data rows
(the loop starts at index 1, skipping the header row), rounded to 2 places. -/
def get_daily_income (ledger : List RegRow) (artIn date : String) : ℚ :=
  round2 ((((ledger.drop 1).filter (rowIncomeOk artIn date)).map amountOf).sum)

/-- Memo marker tested against the outflow row (note the lowercase «фонд»). -/
def markerOut : String := "Отчисление в фонд"

/-- Memo marker tested against the inflow row. -/
def markerIn : String := "Поступление в Фонд"

/-- Row filter of `get_fund_transfers_done_today`: date matches, memo contains
one of the fund markers, parsed amount positive, wallet non-empty. -/
def rowFundOk (date : String) (r : RegRow) : Bool :=
  pyStrip r.date == pyStrip date
    && (isInfixB markerOut.data (pyStrip r.purpose).data
        || isInfixB markerIn.data (pyStrip r.purpose).data)
    && (match r.amount with | none => false | some a => decide (0 < a))
    && pyStrip r.wallet != ""

/-- Embeds `by_destination[wallet] = by_destination.get(wallet, 0.0) + amt`. -/
def upsert (m : List (String × ℚ)) (k : String) (a : ℚ) : List (String × ℚ) :=
  match m with
  | [] => [(k, a)]
  | (k0, v0) :: rest => if k0 == k then (k0, v0 + a) :: rest else (k0, v0) :: upsert rest k a

/-- Embeds `get_fund_transfers_done_today`: per-destination sums of today's
fund-transfer rows (loop again starts at index 1). -/
def get_fund_transfers_done_today (ledger : List RegRow) (date : String) :
    List (String × ℚ) :=
  (ledger.drop 1).foldl
    (fun m r => if rowFundOk date r then upsert m (pyStrip r.wallet) (amountOf r) else m) []

/-- Embeds `sum(already_done.values())` in `_run_funds_logic`. -/
def totalAlready (ledger : List RegRow) (date : String) : ℚ :=
  ((get_fund_transfers_done_today ledger date).map Prod.snd).sum

/-! ### Fund rules and the distribution pass (bot.py `_run_funds_logic`) -/

/-- A fund-allocation rule (`{source, destination, percent}`). -/
structure FundRule where
  source : String
  destination : String
  percent : ℚ
deriving DecidableEq

/-- A rule counted by `total_percent`: source and destination non-empty. -/
def ruleListed (r : FundRule) : Bool :=
  pyStrip r.source != "" && pyStrip r.destination != ""

/-- A rule the transfer loop acts on: listed and `percent > 0`. -/
def ruleActive (r : FundRule) : Bool := ruleListed r && decide (0 < r.percent)

/-- Embeds `total_percent`: percents summed over listed rules (the filter does
not test the sign of the percent). -/
def totalPercent (rules : List FundRule) : ℚ :=
  ((rules.filter ruleListed).map FundRule.percent).sum

/-- Embeds the `new_revenue` computation of `_run_funds_logic`:
back out `already * 100 / total_percent` (rounded to 2 places) when both are
positive. -/
def newRevenueCode (R A P : ℚ) : ℚ :=
  if 0 < P ∧ 0 < A then round2 (R - round2 (A * 100 / P)) else R

/-- Embeds `append_transfer` (sheet_service.py): append the outflow row and the
inflow row, articles taken from the transfer-article pair. -/
def append_transfer (ledger : List RegRow) (date : String) (amount : ℚ)
    (wfrom wto purpose direction : String) (purposeIn : Option String)
    (artOut artIn : String) : List RegRow :=
  ledger ++
    [⟨date, some (-|amount|), wfrom, direction, "", pyStrip purpose, artOut⟩,
     ⟨date, some |amount|, wto, direction, "", pyStrip (purposeIn.getD purpose), artIn⟩]

/-- The per-rule loop of `_run_funds_logic`: skip inert rules and rules whose
rounded amount is `≤ 0`, otherwise write one transfer (two rows) and record
`(destination, amount)`. -/
def runFundsLoop (date artOut artIn direction : String) (newRev : ℚ) :
    List FundRule → List RegRow → List RegRow × List (String × ℤ)
  | [], led => (led, [])
  | r :: rs, led =>
    if ruleActive r then
      let t := ruleTransfer newRev r.percent
      if 0 < t then
        let led2 := append_transfer led date (t : ℚ) (pyStrip r.source)
          (pyStrip r.destination) "Отчисление в Фонд" direction
          (some ("Поступление в Фонд за " ++ date)) artOut artIn
        let rest := runFundsLoop date artOut artIn direction newRev rs led2
        (rest.1, (pyStrip r.destination, t) :: rest.2)
      else runFundsLoop date artOut artIn direction newRev rs led
    else runFundsLoop date artOut artIn direction newRev rs led

/-- Outcome of one `_run_funds_logic` pass. -/
inductive FundResult where
  | noIncome : FundResult
  | noRules : FundResult
  | alreadyDone : FundResult
  | done : List (String × ℤ) → FundResult
deriving DecidableEq

/-- Embeds `_run_funds_logic`: daily income, already-done total, rule filter,
`new_revenue`, then the transfer loop; returns the outcome and the new ledger. -/
def run_funds_logic (ledger : List RegRow) (rules : List FundRule)
    (date artOut artIn direction : String) : FundResult × List RegRow :=
  let R := get_daily_income ledger artIn date
  if R ≤ 0 then (.noIncome, ledger)
  else if rules.isEmpty then (.noRules, ledger)
  else
    let A := totalAlready ledger date
    let P := totalPercent rules
    let NR := newRevenueCode R A P
    if NR ≤ 0 then (.alreadyDone, ledger)
    else
      let out := runFundsLoop date artOut artIn direction NR rules ledger
      (.done out.2, out.1)

/-! ### Cell-level view of the register sheet (`_next_row_register`, `_append_row`)

Here the sheet is a list of rows, each row a list of cell strings for columns
A, B, C, ... (index 2 = column C, the date column); a missing trailing cell is
the empty cell. -/

/-- The date column (column C) of the sheet. -/
def colDate (grid : List (List String)) : List String :=
  grid.map (fun row => row.getD 2 "")

/-- Helper for `_next_row_register`: 1-based index of the last non-empty value,
`0` when all are empty; `idx` is the 1-based index of the head of the list. -/
def lastPopulatedAux : ℕ → ℕ → List String → ℕ
  | _, acc, [] => acc
  | idx, acc, v :: vs => lastPopulatedAux (idx + 1) (if pyStrip v != "" then idx else acc) vs

/-- The 1-based row number of the last populated date cell (`last` in
`_next_row_register`). -/
def lastPopulated (l : List String) : ℕ := lastPopulatedAux 1 0 l

/-- Embeds `_next_row_register`: last populated date row + 1. -/
def next_row_register (grid : List (List String)) : ℕ :=
  lastPopulated (colDate grid) + 1

/-- The reading the spec sentence gives of row discovery: the length of the
contiguous populated block of the date column, starting at row 1.  Stated from
the spec wording, for comparison with `next_row_register`. -/
def highestContiguousPopulated (l : List String) : ℕ :=
  (l.takeWhile (fun v => pyStrip v != "")).length

/-- Pad a row with empty cells up to length `n`. -/
def padRow (l : List String) (n : ℕ) : List String :=
  l ++ List.replicate (n - l.length) ""

/-- Pad a grid with empty rows up to length `n`. -/
def padGrid (g : List (List String)) (n : ℕ) : List (List String) :=
  g ++ List.replicate (n - g.length) []

/-- Write the seven domain values into columns C–I (indices 2–8) of a row,
leaving columns A, B and J+ as they were. -/
def writeDomainCells (old : List String) (vals : List String) : List String :=
  let o := padRow old 9
  o.take 2 ++ vals ++ o.drop 9

/-- Embeds `_append_row`: write `C{next_row}:I{next_row}` with the seven
domain values. -/
def append_row_grid (grid : List (List String)) (vals : List String) :
    List (List String) :=
  let n := next_row_register grid
  let g := padGrid grid n
  g.set (n - 1) (writeDomainCells (g.getD (n - 1) []) vals)

/-- Embeds `append_operation` at cell level (cells already rendered to text). -/
def append_operation_grid (grid : List (List String))
    (date amount wallet direction counterparty purpose article : String) :
    List (List String) :=
  append_row_grid grid [date, amount, wallet, direction, counterparty, purpose, article]

/-- Embeds `append_transfer` at cell level: two `_append_row` calls. -/
def append_transfer_grid (grid : List (List String))
    (date amount wfrom wto purpose purposeIn direction artOut artIn : String) :
    List (List String) :=
  append_row_grid
    (append_row_grid grid [date, "-" ++ amount, wfrom, direction, "", purpose, artOut])
    [date, amount, wto, direction, "", purposeIn, artIn]

/-- The cell at (0-based) row `i`, column `j` of a grid; cells beyond a row's
stored length are empty. -/
def cellAt (grid : List (List String)) (i j : ℕ) : String :=
  (grid.getD i []).getD j ""

/-! ### The free-text fast path (bot.py `_parse_short_form`) -/

/-- Outflow keywords (`TYPE_OUT`). -/
def TYPE_OUT : List String := ["минус", "выбытие", "расход"]

/-- Inflow keywords (`TYPE_IN`). -/
def TYPE_IN : List String := ["плюс", "поступление", "доход"]

/-- Rounding to the nearest whole unit with `.5` away from zero, written from
the spec sentence, to compare with the source's `int(raw ± 0.5)`. -/
def roundHalfAwayFromZero (q : ℚ) : ℤ :=
  if 0 ≤ q then ⌊q + 1 / 2⌋ else ⌈q - 1 / 2⌉

/-- Sum of percents over active rules, written from the spec sentence
("sum of percents of all active rules (source and destination non-empty,
percent > 0)"), to compare with the source's `total_percent`. -/
def totalPercentSpec (rules : List FundRule) : ℚ :=
  ((rules.filter ruleActive).map FundRule.percent).sum

/-- The new distributable revenue as the spec states it (no rounding):
`totalInflow − alreadyDistributedTotal × 100 / totalPercent` when both are
positive, otherwise `totalInflow`. -/
def newRevenueSpec (R A P : ℚ) : ℚ :=
  if 0 < P ∧ 0 < A then R - A * 100 / P else R

/-- A value that is a whole number of hundredths (a whole-cent currency
amount). -/
def centGrid (q : ℚ) : Prop := ∃ z : ℤ, q * 100 = (z : ℚ)

/-- Daily inflow as the spec states it: the sum of the positive amounts of the
data rows bearing the date, excluding rows whose article is the designated
transfer-inflow article. -/
def dailyIncomeSpec (ledger : List RegRow) (artIn date : String) : ℚ :=
  (((ledger.drop 1).filter (fun r =>
      pyStrip r.date == pyStrip date
        && (match r.amount with | none => false | some a => decide (0 < a))
        && pyStrip r.article != artIn)).map amountOf).sum

/-- Total amount a `_run_funds_logic` outcome transferred. -/
def doneTotal : FundResult → ℤ
  | .done ts => (ts.map Prod.snd).sum
  | _ => 0

/-- The two rows one active rule with a positive rounded amount contributes
(empty for skipped rules); used to characterize `runFundsLoop`. -/
def ruleBlock (date artOut artIn direction : String) (newRev : ℚ) (r : FundRule) :
    List RegRow :=
  if ruleActive r ∧ 0 < ruleTransfer newRev r.percent then
    append_transfer [] date ((ruleTransfer newRev r.percent : ℤ) : ℚ) (pyStrip r.source)
      (pyStrip r.destination) "Отчисление в Фонд" direction
      (some ("Поступление в Фонд за " ++ date)) artOut artIn
  else []

/-- All rows one `runFundsLoop` pass appends. -/
def loopRows (date artOut artIn direction : String) (newRev : ℚ)
    (rules : List FundRule) : List RegRow :=
  (rules.map (ruleBlock date artOut artIn direction newRev)).flatten

/-- The transfer list one `runFundsLoop` pass records. -/
def loopTransfers (newRev : ℚ) (rules : List FundRule) : List (String × ℤ) :=
  rules.filterMap (fun r =>
    if ruleActive r then
      if 0 < ruleTransfer newRev r.percent then
        some (pyStrip r.destination, ruleTransfer newRev r.percent)
      else none
    else none)

/-- Clamp a rule's rounded amount at zero (skipped rules contribute nothing). -/
def transferPlus (newRev : ℚ) (r : FundRule) : ℤ := max (ruleTransfer newRev r.percent) 0

/-- Result of the fast-path parser (the dict `_parse_short_form` returns);
fields not present in the dict for the given type are `""`. -/
structure ShortOp where
  type : String
  date : String
  amount : ℚ
  wallet : String := ""
  walletFrom : String := ""
  walletTo : String := ""
  counterparty : String := ""
  purpose : String := ""
deriving DecidableEq

/-- The order `sorted(wallets, key=len, reverse=True)` sorts by: descending
length (stable insertion sort, like Python's stable sort). -/
def lenDescOrder (x y : String) : Prop := y.data.length ≤ x.data.length

instance : DecidableRel lenDescOrder := fun _ _ => Nat.decLe _ _

instance : IsTotal String lenDescOrder :=
  ⟨fun a b => le_total b.data.length a.data.length⟩

instance : IsTrans String lenDescOrder := ⟨fun _ _ _ hab hbc => le_trans hbc hab⟩

/-- Embeds `sorted(wallets, key=len, reverse=True)` (stable, descending). -/
def sortLenDesc (l : List String) : List String := l.insertionSort lenDescOrder

/-- Inner scan of `match_wallet`: first wallet (in length-descending order)
whose lowercase form is a prefix of the lowercase input. -/
def matchWalletAux (s : String) : List String → Option String × String
  | [] => (none, s)
  | w :: ws =>
    if (pyLower w).data.isPrefixOf (pyLower s).data then
      (some w, pyStrip ((s.data.drop w.data.length).asString))
    else matchWalletAux s ws

/-- Embeds `match_wallet`: strip the input, then scan wallets longest first. -/
def matchWallet (wallets : List String) (s : String) : Option String × String :=
  matchWalletAux (pyStrip s) (sortLenDesc wallets)

/-- Embeds `extract_counterparty_purpose`: the first parenthesized segment
(with a closing paren) becomes the counterparty, the text after it the purpose;
text before the parentheses is dropped; with no match the whole (stripped)
input is the purpose. -/
def extractCounterpartyPurpose (s : String) : String × String :=
  let l := s.data
  let pre := l.takeWhile (fun c => c ≠ '(')
  if pre.length = l.length then ("", pyStrip s)
  else
    let rest := l.drop (pre.length + 1)
    let inside := rest.takeWhile (fun c => c ≠ ')')
    if inside.length = rest.length then ("", pyStrip s)
    else (pyStrip inside.asString, pyStrip ((rest.drop (inside.length + 1)).asString))

/-- Classification of the first token plus the position of the amount and the
remainder, mirroring the branch ladder of `_parse_short_form`. -/
def classifyFirst (parts : List String) : Option (String × String × String) :=
  match parts with
  | [] => none
  | first0 :: rest =>
    let first := pyLower first0
    if first = "перевод" then
      some ("transfer", replaceCommaDot (rest.getD 0 ""), pyStrip (joinWords (rest.drop 1)))
    else if first ∈ TYPE_OUT ∨ first = "-" then
      some ("out", replaceCommaDot (rest.getD 0 ""), pyStrip (joinWords (rest.drop 1)))
    else if first ∈ TYPE_IN then
      some ("in", replaceCommaDot (rest.getD 0 ""), pyStrip (joinWords (rest.drop 1)))
    else
      match parse_amount (replaceCommaDot first0) with
      | some a => if 0 < a then some ("in", replaceCommaDot first0, pyStrip (joinWords rest))
                  else none
      | none => none

/-- The transfer arm of `_parse_short_form` after the amount guard: parse the
two wallets, the remainder is the memo. -/
def buildTransferOp (today : String) (wallets : List String) (amount : ℚ)
    (rest : String) : Option ShortOp :=
  if rest.data.isEmpty then none
  else match matchWallet wallets rest with
    | (none, _) => none
    | (some wFrom, afterFirst) =>
      if wFrom = "" then none
      else match matchWallet wallets afterFirst with
        | (none, _) => none
        | (some wTo, afterSecond) =>
          if wTo = "" then none
          else some { type := "transfer", date := today, amount := amount,
                      walletFrom := wFrom, walletTo := wTo,
                      purpose := pyStrip afterSecond }

/-- The inflow/outflow arm of `_parse_short_form` after the amount guard:
parse the wallet, extract the parenthesized counterparty, the rest is the memo. -/
def buildInOutOp (today : String) (wallets : List String) (opType : String)
    (amount : ℚ) (rest : String) : Option ShortOp :=
  if rest.data.isEmpty then none
  else match matchWallet wallets rest with
    | (none, _) => none
    | (some w, after) =>
      if w = "" then none
      else some { type := opType, date := today, amount := amount, wallet := w,
                  counterparty := (extractCounterpartyPurpose after).1,
                  purpose := (extractCounterpartyPurpose after).2 }

/-- Embeds `_parse_short_form`.  `today` stands for `_today_str()`. -/
def parse_short_form (today text : String) (wallets : List String) : Option ShortOp :=
  let line := pyStrip text
  if line.data.isEmpty then none
  else
    let parts := pySplitWs line
    if parts.length < 2 then none
    else
      match classifyFirst parts with
      | none => none
      | some (opType, amountRaw, rest) =>
        match parse_amount amountRaw with
        | none => none
        | some amount =>
          if amount ≤ 0 then none
          else if opType = "transfer" then
            buildTransferOp today wallets amount rest
          else buildInOutOp today wallets opType amount rest

/-! ### Draft state and commit (bot.py dialog handlers) -/

/-- Embeds `append_operation` (sheet_service.py) on the row-level register. -/
def append_operation (ledger : List RegRow) (date : String) (amount : ℚ)
    (wallet direction counterparty purpose article : String) : List RegRow :=
  ledger ++ [⟨date, some amount, wallet, direction, counterparty, purpose, article⟩]

/-- The events that can write the draft's `amount` field, with the raw input
they carry.  These are the only sites in bot.py that assign `ud["amount"]`:
guided entry (`amount_entered`, `transfer_amount_entered`), the two edit flows
(`confirm_edit_input_entered` and the `_waiting_for == "amount"` text branch),
the fast path, and commit (which clears the draft). -/
inductive AmountEvent where
  | guided : String → AmountEvent
  | editAmount : String → AmountEvent
  | fastPath : String → String → List String → AmountEvent
  | commit : AmountEvent

/-- Effect of each event on the draft's amount field (`none` = no draft /
field not set). -/
def amountStep (s : Option ℚ) : AmountEvent → Option ℚ
  | .guided text =>
    match parse_amount (pyStrip text) with
    | some a => if 0 < a then some a else s
    | none => s
  | .editAmount text =>
    match parse_amount text with
    | some a => if 0 < a then some a else s
    | none => s
  | .fastPath today text wallets =>
    match parse_short_form today text wallets with
    | some d => some d.amount
    | none => s
  | .commit => none

/-- Messages the commit handler can leave on screen. -/
inductive Screen where
  | entry : Screen
  | success : Screen
  | expired : Screen
deriving DecidableEq

/-- The per-user session around the Confirm step of the income/expense flow. -/
structure SessionState where
  draft : Option ShortOp
  article : String
  ledger : List RegRow
  screen : Screen

/-- Embeds the confirm-button handler: with a draft present, snapshot it, clear
the per-user data, apply the outflow sign and append (the CB_TEXT_CONFIRM_YES
branch of `handle_text_form_callback` / `_save_income_expense_callback`);
with no draft, the "session expired" fallback answers and writes nothing. -/
def pressConfirm (direction : String) (s : SessionState) : SessionState :=
  match s.draft with
  | some d =>
    let signed := if d.type == "out" then -|d.amount| else d.amount
    { draft := none, article := s.article,
      ledger := append_operation s.ledger d.date signed d.wallet direction
        d.counterparty d.purpose s.article,
      screen := .success }
  | none => { s with screen := .expired }

/-! ### The reference-data cache (sheet_service.py) -/

/-- Embeds `dict.pop(key, None)` on the cache (a partial map from dataset keys
to cached entries). -/
def cachePop {α : Type} (c : String → Option α) (k : String) : String → Option α :=
  fun q => if q = k then none else c q

/-- Embeds `invalidate_balances_cache`: pop `"balances"`, then `"article_usage"`. -/
def invalidate_balances_cache {α : Type} (c : String → Option α) : String → Option α :=
  cachePop (cachePop c "balances") "article_usage"

/-! ### A concrete register and rule set used to exercise the fund pass -/

/-- Header row of the register sheet. -/
def exHeader : RegRow := ⟨"Дата", none, "Кошелёк", "Направление", "Контрагент", "Назначение", "Статья"⟩

/-- One revenue row: 49 units into «Касса». -/
def exIncome49 : RegRow := ⟨"07.10.2025", some 49, "Касса", "Осн", "", "", "Выручка"⟩

/-- A register holding one day's single revenue row. -/
def exLedger : List RegRow := [exHeader, exIncome49]

/-- Two active rules: 3% and 1% of the day's inflow into two funds. -/
def exRules : List FundRule := [⟨"Касса", "Фонд1", 3⟩, ⟨"Касса", "Фонд2", 1⟩]

/-- The transfer-outflow article of the example sheet. -/
def exArtOut : String := "Перевод между счетами (выбытие)"

/-- The transfer-inflow article of the example sheet. -/
def exArtIn : String := "Перевод между счетами (поступление)"

/-- The outflow row the first pass writes. -/
def exRowOut : RegRow :=
  ⟨"07.10.2025", some (-1), "Касса", "Осн", "", "Отчисление в Фонд", exArtOut⟩

/-- The inflow row the first pass writes. -/
def exRowIn : RegRow :=
  ⟨"07.10.2025", some 1, "Фонд1", "Осн", "", "Поступление в Фонд за 07.10.2025", exArtIn⟩

/-! ## Helper lemmas -/

theorem asString_data (l : List Char) : (List.asString l).data = l := rfl

theorem rhe_bounds (q : ℚ) : q - 1 / 2 ≤ (rhe q : ℚ) ∧ (rhe q : ℚ) ≤ q + 1 / 2 := by
  have hf1 := Int.floor_le q
  have hf2 := Int.lt_floor_add_one q
  have hg1 := Int.floor_le (q + 1 / 2)
  have hg2 := Int.lt_floor_add_one (q + 1 / 2)
  rw [rhe]
  split_ifs with h1 h2 <;> constructor <;> push_cast <;> linarith

theorem round2_bounds (q : ℚ) : q - 1 / 200 ≤ round2 q ∧ round2 q ≤ q + 1 / 200 := by
  obtain ⟨h1, h2⟩ := rhe_bounds (q * 100)
  rw [round2]
  constructor
  · rw [le_div_iff₀ (by norm_num : (0 : ℚ) < 100)]; linarith
  · rw [div_le_iff₀ (by norm_num : (0 : ℚ) < 100)]; linarith

theorem rhe_intCast (z : ℤ) : rhe (z : ℚ) = z := by
  rw [rhe, Int.floor_intCast]
  have h1 : ¬((z : ℚ) - z = 1 / 2) := by norm_num
  rw [if_neg h1, add_comm, Int.floor_add_int]
  norm_num

theorem centGrid_round2 (q : ℚ) : centGrid (round2 q) := by
  refine ⟨rhe (q * 100), ?_⟩
  rw [round2]; field_simp

theorem centGrid_sub {a b : ℚ} (ha : centGrid a) (hb : centGrid b) : centGrid (a - b) := by
  obtain ⟨za, hza⟩ := ha
  obtain ⟨zb, hzb⟩ := hb
  exact ⟨za - zb, by push_cast; linarith [hza, hzb]⟩

theorem round2_eq_self {q : ℚ} (h : centGrid q) : round2 q = q := by
  obtain ⟨z, hz⟩ := h
  rw [round2, hz, rhe_intCast]
  field_simp
  linarith [hz]

theorem round2_zero : round2 0 = 0 := round2_eq_self ⟨0, by norm_num⟩

theorem pyTrunc_of_nonneg {q : ℚ} (h : 0 ≤ q) : pyTrunc q = ⌊q⌋ := by
  rw [pyTrunc, if_pos h]

theorem ruleTransfer_eq_floor {nr p : ℚ} (h : 0 ≤ nr * p / 100) :
    ruleTransfer nr p = ⌊nr * p / 100 + 1 / 2⌋ := by
  rw [ruleTransfer]
  simp only [if_pos h]
  exact pyTrunc_of_nonneg (by linarith)

theorem ruleTransfer_bounds {nr p : ℚ} (h : 0 ≤ nr * p / 100) :
    nr * p / 100 - 1 / 2 ≤ (ruleTransfer nr p : ℚ) ∧
      (ruleTransfer nr p : ℚ) ≤ nr * p / 100 + 1 / 2 := by
  rw [ruleTransfer_eq_floor h]
  have h1 := Int.floor_le (nr * p / 100 + 1 / 2)
  have h2 := Int.lt_floor_add_one (nr * p / 100 + 1 / 2)
  constructor <;> linarith

theorem transferPlus_bounds {nr : ℚ} {r : FundRule} (hp : 0 < r.percent) (hnr : 0 < nr) :
    nr * r.percent / 100 - 1 / 2 ≤ (transferPlus nr r : ℚ) ∧
      (transferPlus nr r : ℚ) ≤ nr * r.percent / 100 + 1 / 2 := by
  have hraw : 0 ≤ nr * r.percent / 100 := by positivity
  obtain ⟨h1, h2⟩ := ruleTransfer_bounds hraw
  rw [transferPlus]
  rcases le_total (ruleTransfer nr r.percent) 0 with h | h
  · rw [max_eq_right h]
    constructor
    · push_cast
      have : (ruleTransfer nr r.percent : ℚ) ≤ 0 := by exact_mod_cast h
      linarith
    · push_cast; linarith
  · rw [max_eq_left h]
    exact ⟨h1, h2⟩

theorem transferPlus_nonneg (nr : ℚ) (r : FundRule) : 0 ≤ transferPlus nr r :=
  le_max_right _ _

/-! String helper lemmas -/

theorem dropWhile_eq_self_of_head {c : Char} {l : List Char} (h : isWs c = false) :
    (c :: l).dropWhile isWs = c :: l := by
  simp [List.dropWhile_cons, h]

theorem dropWhile_head_false {p : Char → Bool} {l : List Char} {c : Char} {cs : List Char}
    (h : l.dropWhile p = c :: cs) : p c = false := by
  have := List.head?_dropWhile_not p l
  rw [h] at this
  simpa using this

theorem dropWhile_ws_idem (l : List Char) :
    (l.dropWhile isWs).dropWhile isWs = l.dropWhile isWs := by
  rcases h : l.dropWhile isWs with _ | ⟨c, cs⟩
  · rfl
  · exact dropWhile_eq_self_of_head (dropWhile_head_false h)

/-- A prefix with non-whitespace first and last characters survives `strip`. -/
theorem strip_keeps_prefix {m l : List Char} (hpre : m <+: l)
    (hhead : ∀ c cs, m = c :: cs → isWs c = false)
    (hlast : ∀ c cs, m.reverse = c :: cs → isWs c = false) :
    m <+: stripList l := by
  obtain ⟨t, rfl⟩ := hpre
  rcases m with _ | ⟨c, cs⟩
  · exact List.nil_prefix
  have hc : isWs c = false := hhead c cs rfl
  have hd1 : List.dropWhile isWs (c :: cs ++ t) = c :: cs ++ t := by
    simpa using @dropWhile_eq_self_of_head c (cs ++ t) hc
  rw [stripList, hd1,
    show (c :: cs ++ t).reverse = t.reverse ++ (c :: cs).reverse by simp,
    List.dropWhile_append]
  split_ifs with hemp
  · rcases hrm : (c :: cs).reverse with _ | ⟨c2, cs2⟩
    · exact absurd (congrArg List.length hrm) (by simp)
    have hc2 : isWs c2 = false := hlast c2 cs2 hrm
    have hdw : List.dropWhile isWs (c2 :: cs2) = c2 :: cs2 :=
      dropWhile_eq_self_of_head hc2
    rw [hdw, ← hrm, List.reverse_reverse]
  · rw [List.reverse_append, List.reverse_reverse]
    exact List.prefix_append _ _

theorem stripList_idem (l : List Char) : stripList (stripList l) = stripList l := by
  have step1 : (stripList l).reverse.dropWhile isWs = (stripList l).reverse := by
    rw [stripList, List.reverse_reverse]
    exact dropWhile_ws_idem _
  have step2 : (stripList l).dropWhile isWs = stripList l := by
    rcases hz : stripList l with _ | ⟨c, cs⟩
    · rfl
    · have hpre : (c :: cs) <+: (l.dropWhile isWs) := by
        rw [← hz, stripList]
        have hsub : ((l.dropWhile isWs).reverse.dropWhile isWs) <:+ (l.dropWhile isWs).reverse :=
          List.dropWhile_suffix _
        have h2 := hsub.reverse
        rwa [List.reverse_reverse] at h2
      obtain ⟨t2, ht2⟩ := hpre
      have hc : isWs c = false := dropWhile_head_false ht2.symm
      exact dropWhile_eq_self_of_head hc
  rw [stripList, step2, step1, List.reverse_reverse]

theorem pyStrip_idem (s : String) : pyStrip (pyStrip s) = pyStrip s := by
  rw [pyStrip, pyStrip, asString_data, stripList_idem]

/-! Characterization of the fund-distribution loop -/

theorem loopRows_cons (date artOut artIn direction : String) (nr : ℚ)
    (r : FundRule) (rs : List FundRule) :
    loopRows date artOut artIn direction nr (r :: rs) =
      ruleBlock date artOut artIn direction nr r ++
        loopRows date artOut artIn direction nr rs := by
  rw [loopRows, List.map_cons, List.flatten_cons, loopRows]

theorem loopTransfers_cons (nr : ℚ) (r : FundRule) (rs : List FundRule) :
    loopTransfers nr (r :: rs) =
      (if ruleActive r = true then
        if 0 < ruleTransfer nr r.percent then
          [(pyStrip r.destination, ruleTransfer nr r.percent)]
        else []
      else []) ++ loopTransfers nr rs := by
  rw [loopTransfers, List.filterMap_cons, loopTransfers]
  by_cases hact : ruleActive r = true
  · by_cases hpos : 0 < ruleTransfer nr r.percent
    · simp [hact, hpos]
    · simp [hact, hpos]
  · simp [hact]

theorem runFundsLoop_fst (date artOut artIn direction : String) (nr : ℚ)
    (rules : List FundRule) (led : List RegRow) :
    (runFundsLoop date artOut artIn direction nr rules led).1 =
      led ++ loopRows date artOut artIn direction nr rules := by
  induction rules generalizing led with
  | nil => simp [runFundsLoop, loopRows]
  | cons r rs ih =>
    rw [loopRows_cons, runFundsLoop]
    by_cases hact : ruleActive r = true
    · by_cases hpos : 0 < ruleTransfer nr r.percent
      · rw [if_pos hact]
        simp only [if_pos hpos]
        rw [ih, ruleBlock, if_pos ⟨hact, hpos⟩, append_transfer, append_transfer,
          List.nil_append, List.append_assoc]
      · rw [if_pos hact]
        simp only [if_neg hpos]
        rw [ih, ruleBlock, if_neg (fun h => hpos h.2), List.nil_append]
    · rw [if_neg hact, ih, ruleBlock, if_neg (fun h => hact h.1), List.nil_append]

theorem runFundsLoop_snd (date artOut artIn direction : String) (nr : ℚ)
    (rules : List FundRule) (led : List RegRow) :
    (runFundsLoop date artOut artIn direction nr rules led).2 =
      loopTransfers nr rules := by
  induction rules generalizing led with
  | nil => simp [runFundsLoop, loopTransfers]
  | cons r rs ih =>
    rw [loopTransfers_cons, runFundsLoop]
    by_cases hact : ruleActive r = true
    · by_cases hpos : 0 < ruleTransfer nr r.percent
      · rw [if_pos hact]
        simp only [if_pos hpos]
        rw [ih, if_pos hact, List.singleton_append]
      · rw [if_pos hact]
        simp only [if_neg hpos]
        rw [ih, if_pos hact, List.nil_append]
    · rw [if_neg hact, if_neg hact, ih, List.nil_append]

theorem loopTransfers_sum (nr : ℚ) (rules : List FundRule) :
    (((loopTransfers nr rules).map Prod.snd).sum : ℤ) =
      ((rules.filter ruleActive).map (transferPlus nr)).sum := by
  induction rules with
  | nil => simp [loopTransfers]
  | cons r rs ih =>
    rw [loopTransfers_cons]
    by_cases hact : ruleActive r = true
    · by_cases hpos : 0 < ruleTransfer nr r.percent
      · rw [if_pos hact, if_pos hpos, List.singleton_append, List.map_cons,
          List.sum_cons, List.filter_cons_of_pos hact, List.map_cons,
          List.sum_cons, ih, transferPlus, max_eq_left (le_of_lt hpos)]
      · rw [if_pos hact, if_neg hpos, List.nil_append, ih,
          List.filter_cons_of_pos hact, List.map_cons, List.sum_cons,
          transferPlus, max_eq_right (by omega), zero_add]
    · rw [if_neg hact, List.nil_append, ih,
        List.filter_cons_of_neg (by simp [hact])]

theorem loopTransfers_pos (nr : ℚ) (rules : List FundRule) :
    ∀ p ∈ loopTransfers nr rules, 0 < p.2 := by
  induction rules with
  | nil => simp [loopTransfers]
  | cons r rs ih =>
    rw [loopTransfers_cons]
    intro p hp
    rcases List.mem_append.mp hp with h | h
    · by_cases hact : ruleActive r = true
      · by_cases hpos : 0 < ruleTransfer nr r.percent
        · rw [if_pos hact, if_pos hpos] at h
          rcases List.mem_singleton.mp h with rfl
          exact hpos
        · rw [if_pos hact, if_neg hpos] at h; cases h
      · rw [if_neg hact] at h; cases h
    · exact ih p h

/-! Bookkeeping of `get_fund_transfers_done_today` -/

theorem upsert_sum (m : List (String × ℚ)) (k : String) (a : ℚ) :
    ((upsert m k a).map Prod.snd).sum = (m.map Prod.snd).sum + a := by
  induction m with
  | nil => simp [upsert]
  | cons kv rest ih =>
    rw [upsert]
    split_ifs with h
    · simp only [List.map_cons, List.sum_cons]; ring
    · simp only [List.map_cons, List.sum_cons, ih]; ring

theorem fund_fold_sum (date : String) (rows : List RegRow) (m : List (String × ℚ)) :
    ((rows.foldl
        (fun m r => if rowFundOk date r then upsert m (pyStrip r.wallet) (amountOf r) else m)
        m).map Prod.snd).sum =
      (m.map Prod.snd).sum + ((rows.filter (rowFundOk date)).map amountOf).sum := by
  induction rows generalizing m with
  | nil => simp
  | cons r rs ih =>
    rw [List.foldl_cons]
    split_ifs with h
    · rw [ih, upsert_sum, List.filter_cons_of_pos h, List.map_cons, List.sum_cons]
      ring
    · rw [ih, List.filter_cons_of_neg (by simp [h])]

theorem totalAlready_eq_sum (ledger : List RegRow) (date : String) :
    totalAlready ledger date =
      (((ledger.drop 1).filter (rowFundOk date)).map amountOf).sum := by
  rw [totalAlready, get_fund_transfers_done_today, fund_fold_sum]
  simp

/-! ## Claim C10: cache invalidation frame property -/

/-- C10: invalidating the balances cache removes exactly the `balances` and
`article_usage` entries and leaves every other cache entry (wallets,
directions, per-group article lists, transfer articles, ...) unchanged. -/
theorem invalidate_cache_frame {α : Type} (c : String → Option α) :
    invalidate_balances_cache c "balances" = none ∧
    invalidate_balances_cache c "article_usage" = none ∧
    ∀ k : String, k ≠ "balances" → k ≠ "article_usage" →
      invalidate_balances_cache c k = c k := by
  refine ⟨?_, ?_, ?_⟩
  · rw [invalidate_balances_cache, cachePop, cachePop]
    simp
  · rw [invalidate_balances_cache, cachePop]
    simp
  · intro k h1 h2
    rw [invalidate_balances_cache, cachePop, cachePop, if_neg h2, if_neg h1]

/-- Witness for C10 at a concrete cache state and the key `wallets`. -/
theorem invalidate_cache_frame_witness :
    ("wallets" : String) ≠ "balances" ∧ ("wallets" : String) ≠ "article_usage" ∧
      invalidate_balances_cache (fun k => if k = "wallets" then some (1 : ℕ) else none)
          "wallets" =
        (fun k => if k = "wallets" then some (1 : ℕ) else none) "wallets" :=
  ⟨by decide, by decide,
    (invalidate_cache_frame (fun k => if k = "wallets" then some (1 : ℕ) else none)).2.2
      "wallets" (by decide) (by decide)⟩

/-! ## Claim C8: commit is single-shot -/

/-- C8: the commit transition clears the per-user draft before invoking the
ledger append; a second press of the confirm button therefore finds no draft,
appends nothing, and lands on the "session expired" fallback. -/
theorem commit_single_shot (direction : String) (s : SessionState) (d : ShortOp)
    (h : s.draft = some d) :
    (pressConfirm direction s).draft = none ∧
    (pressConfirm direction s).ledger =
      append_operation s.ledger d.date
        (if d.type == "out" then -|d.amount| else d.amount) d.wallet direction
        d.counterparty d.purpose s.article ∧
    (pressConfirm direction (pressConfirm direction s)).ledger =
      (pressConfirm direction s).ledger ∧
    (pressConfirm direction (pressConfirm direction s)).screen = Screen.expired ∧
    (pressConfirm direction (pressConfirm direction s)).draft = none := by
  have h1 : pressConfirm direction s =
      { draft := none, article := s.article,
        ledger := append_operation s.ledger d.date
          (if d.type == "out" then -|d.amount| else d.amount) d.wallet direction
          d.counterparty d.purpose s.article,
        screen := .success } := by
    rw [pressConfirm, h]
  rw [h1, pressConfirm]
  exact ⟨rfl, rfl, rfl, rfl, rfl⟩

/-- Witness for C8 at a concrete session with a populated draft. -/
theorem commit_single_shot_witness :
    (SessionState.mk (some ⟨"in", "07.10.2025", 5, "Касса", "", "", "", ""⟩)
          "Выручка" [] Screen.entry).draft =
        some ⟨"in", "07.10.2025", 5, "Касса", "", "", "", ""⟩ ∧
      ((pressConfirm "Осн" (SessionState.mk
            (some ⟨"in", "07.10.2025", 5, "Касса", "", "", "", ""⟩)
            "Выручка" [] Screen.entry)).draft = none ∧
        (pressConfirm "Осн" (SessionState.mk
            (some ⟨"in", "07.10.2025", 5, "Касса", "", "", "", ""⟩)
            "Выручка" [] Screen.entry)).ledger =
          append_operation [] "07.10.2025"
            (if ("in" : String) == "out" then -|(5 : ℚ)| else (5 : ℚ)) "Касса" "Осн"
            "" "" "Выручка" ∧
        (pressConfirm "Осн" (pressConfirm "Осн" (SessionState.mk
            (some ⟨"in", "07.10.2025", 5, "Касса", "", "", "", ""⟩)
            "Выручка" [] Screen.entry))).ledger =
          (pressConfirm "Осн" (SessionState.mk
            (some ⟨"in", "07.10.2025", 5, "Касса", "", "", "", ""⟩)
            "Выручка" [] Screen.entry)).ledger ∧
        (pressConfirm "Осн" (pressConfirm "Осн" (SessionState.mk
            (some ⟨"in", "07.10.2025", 5, "Касса", "", "", "", ""⟩)
            "Выручка" [] Screen.entry))).screen = Screen.expired ∧
        (pressConfirm "Осн" (pressConfirm "Осн" (SessionState.mk
            (some ⟨"in", "07.10.2025", 5, "Касса", "", "", "", ""⟩)
            "Выручка" [] Screen.entry))).draft = none) :=
  ⟨rfl, commit_single_shot "Осн" _ _ rfl⟩

/-! Grid lemmas for row placement (C5) -/

theorem lastPopulatedAux_ge_acc (l : List String) :
    ∀ idx acc, acc < idx → acc ≤ lastPopulatedAux idx acc l := by
  induction l with
  | nil => intro idx acc _; exact le_refl _
  | cons v vs ih =>
    intro idx acc hlt
    rw [lastPopulatedAux]
    split_ifs with h
    · calc acc ≤ idx := le_of_lt hlt
        _ ≤ lastPopulatedAux (idx + 1) idx vs := ih (idx + 1) idx (Nat.lt_succ_self _)
    · exact ih (idx + 1) acc (Nat.lt_succ_of_lt hlt)

theorem lastPopulatedAux_ge_pop (l : List String) :
    ∀ idx acc i, acc < idx → pyStrip (l.getD i "") ≠ "" → i < l.length →
      idx + i ≤ lastPopulatedAux idx acc l := by
  induction l with
  | nil => intro idx acc i _ _ hi; exact absurd hi (by simp)
  | cons v vs ih =>
    intro idx acc i hlt hpop hi
    rw [lastPopulatedAux]
    rcases i with _ | i2
    · have hv : pyStrip v ≠ "" := by simpa using hpop
      rw [if_pos (by simpa using hv)]
      simpa using lastPopulatedAux_ge_acc vs (idx + 1) idx (Nat.lt_succ_self _)
    · have hpop2 : pyStrip (vs.getD i2 "") ≠ "" := by simpa using hpop
      have hi2 : i2 < vs.length := by simpa using hi
      have := ih (idx + 1) (if pyStrip v != "" then idx else acc) i2
        (by split_ifs <;> omega) hpop2 hi2
      omega

theorem pyStrip_empty : pyStrip "" = "" := by decide

theorem populated_le_lastPopulated {l : List String} {i : ℕ}
    (h : pyStrip (l.getD i "") ≠ "") : i + 1 ≤ lastPopulated l := by
  rcases Nat.lt_or_ge i l.length with hi | hi
  · have := lastPopulatedAux_ge_pop l 1 0 i (by omega) h hi
    rw [lastPopulated]
    omega
  · have hnone : l.getD i "" = "" := by
      rw [List.getD_eq_getElem?_getD, List.getElem?_eq_none hi]
      rfl
    rw [hnone] at h
    exact absurd pyStrip_empty h

theorem padRow_getD (old : List String) (n j : ℕ) :
    (padRow old n).getD j "" = old.getD j "" := by
  rw [padRow]
  rcases Nat.lt_or_ge j old.length with hj | hj
  · rw [List.getD_eq_getElem?_getD, List.getElem?_append_left hj,
      ← List.getD_eq_getElem?_getD]
  · have h1 : old.getD j "" = "" := by
      rw [List.getD_eq_getElem?_getD, List.getElem?_eq_none hj]; rfl
    rw [h1, List.getD_eq_getElem?_getD, List.getElem?_append_right hj,
      List.getElem?_replicate]
    split_ifs <;> rfl

theorem rowAt_padGrid (g : List (List String)) (n i : ℕ) :
    ∀ j, ((padGrid g n).getD i []).getD j "" = (g.getD i []).getD j "" := by
  intro j
  rcases Nat.lt_or_ge i g.length with hi | hi
  · have heq : (padGrid g n).getD i [] = g.getD i [] := by
      rw [padGrid, List.getD_eq_getElem?_getD, List.getD_eq_getElem?_getD,
        List.getElem?_append_left hi]
    rw [heq]
  · have h1 : g.getD i [] = [] := by
      rw [List.getD_eq_getElem?_getD, List.getElem?_eq_none hi]; rfl
    have h2 : (padGrid g n).getD i [] = [] := by
      rw [padGrid, List.getD_eq_getElem?_getD, List.getElem?_append_right hi,
        List.getElem?_replicate]
      split_ifs <;> rfl
    rw [h1, h2]

theorem cellAt_padGrid (g : List (List String)) (n i j : ℕ) :
    cellAt (padGrid g n) i j = cellAt g i j := by
  rw [cellAt, cellAt]
  exact rowAt_padGrid g n i j

theorem cellAt_set_ne (g : List (List String)) (i : ℕ) (row : List String)
    {i2 : ℕ} (h : i2 ≠ i) (j : ℕ) : cellAt (g.set i row) i2 j = cellAt g i2 j := by
  have heq : (g.set i row).getD i2 [] = g.getD i2 [] := by
    rw [List.getD_eq_getElem?_getD, List.getD_eq_getElem?_getD,
      List.getElem?_set_ne (by omega)]
  rw [cellAt, cellAt, heq]

theorem writeDomainCells_low (old vals : List String) {j : ℕ} (hj : j < 2) :
    (writeDomainCells old vals).getD j "" = old.getD j "" := by
  rw [writeDomainCells]
  have hlen : (padRow old 9).length = max 9 old.length := by
    rw [padRow, List.length_append, List.length_replicate]; omega
  have htk : ((padRow old 9).take 2).length = 2 := by
    rw [List.length_take]; omega
  rw [List.getD_eq_getElem?_getD,
    List.getElem?_append_left (by rw [List.length_append, htk]; omega),
    List.getElem?_append_left (by rw [htk]; omega),
    List.getElem?_take_of_lt hj, ← List.getD_eq_getElem?_getD, padRow_getD]

theorem writeDomainCells_mid (old vals : List String) {j : ℕ}
    (hj1 : 2 ≤ j) (hj2 : j < 9) (hv : vals.length = 7) :
    (writeDomainCells old vals).getD j "" = vals.getD (j - 2) "" := by
  rw [writeDomainCells]
  have hlen : (padRow old 9).length = max 9 old.length := by
    rw [padRow, List.length_append, List.length_replicate]; omega
  have htk : ((padRow old 9).take 2).length = 2 := by
    rw [List.length_take]; omega
  rw [List.getD_eq_getElem?_getD,
    List.getElem?_append_left (by rw [List.length_append, htk, hv]; omega),
    List.getElem?_append_right (by rw [htk]; omega),
    htk, ← List.getD_eq_getElem?_getD]

theorem writeDomainCells_high (old vals : List String) {j : ℕ}
    (hj : 9 ≤ j) (hv : vals.length = 7) :
    (writeDomainCells old vals).getD j "" = old.getD j "" := by
  rw [writeDomainCells]
  have hlen : (padRow old 9).length = max 9 old.length := by
    rw [padRow, List.length_append, List.length_replicate]; omega
  have htk : ((padRow old 9).take 2).length = 2 := by
    rw [List.length_take]; omega
  have hpre : ((padRow old 9).take 2 ++ vals).length = 9 := by
    rw [List.length_append, htk, hv]
  rw [List.getD_eq_getElem?_getD,
    List.getElem?_append_right (by rw [hpre]; omega),
    hpre, List.getElem?_drop, ← List.getD_eq_getElem?_getD, padRow_getD]
  congr 1
  omega

theorem colDate_getD (grid : List (List String)) (i : ℕ) :
    (colDate grid).getD i "" = cellAt grid i 2 := by
  rw [colDate, cellAt]
  rcases Nat.lt_or_ge i grid.length with hi | hi
  · rw [List.getD_eq_getElem?_getD, List.getElem?_map,
      List.getElem?_eq_getElem hi,
      List.getD_eq_getElem?_getD grid, List.getElem?_eq_getElem hi]
    rfl
  · have h1 : grid.getD i [] = [] := by
      rw [List.getD_eq_getElem?_getD, List.getElem?_eq_none hi]; rfl
    rw [List.getD_eq_getElem?_getD, List.getElem?_map, List.getElem?_eq_none hi, h1]
    rfl

/-! ## Claim C5: row placement and column frame of the append operations -/

/-- C5 counterexample: with a gap in the date column (header "Дата" in row 1,
a date in row 2, an empty row 3, a date in row 4), `_next_row_register`
computes row 5 — the highest populated date row plus one — not the highest
contiguous populated row plus one, which would be row 3. -/
theorem next_row_not_contiguous :
    next_row_register
        [["", "", "Дата"], ["", "", "01.01.2025"], [], ["", "", "02.01.2025"]] = 5 ∧
      highestContiguousPopulated
          (colDate [["", "", "Дата"], ["", "", "01.01.2025"], [], ["", "", "02.01.2025"]]) +
          1 = 3 ∧
      (5 : ℕ) ≠ 3 :=
  ⟨by decide, by decide, by decide⟩

/-- C5 (amended): `_append_row` (used by both `append_operation` and
`append_transfer`) writes to row `last populated date row + 1`; every other
row — in particular every row with a populated date cell — is left entirely
unchanged, and in the target row only the domain columns C–I (indices 2–8)
are written, columns A, B and J onward keeping their old cells. -/
theorem append_row_placement_frame (grid : List (List String)) (vals : List String)
    (hv : vals.length = 7) :
    next_row_register grid = lastPopulated (colDate grid) + 1 ∧
    (∀ i j, i ≠ next_row_register grid - 1 →
      cellAt (append_row_grid grid vals) i j = cellAt grid i j) ∧
    (∀ i, pyStrip (cellAt grid i 2) ≠ "" →
      ∀ j, cellAt (append_row_grid grid vals) i j = cellAt grid i j) ∧
    (∀ j, j < 2 ∨ 9 ≤ j →
      cellAt (append_row_grid grid vals) (next_row_register grid - 1) j =
        cellAt grid (next_row_register grid - 1) j) ∧
    (∀ j, 2 ≤ j → j < 9 →
      cellAt (append_row_grid grid vals) (next_row_register grid - 1) j =
        vals.getD (j - 2) "") ∧
    (∀ d a w dir cp p art, append_operation_grid grid d a w dir cp p art =
      append_row_grid grid [d, a, w, dir, cp, p, art]) := by
  have hframe : ∀ i j, i ≠ next_row_register grid - 1 →
      cellAt (append_row_grid grid vals) i j = cellAt grid i j := by
    intro i j hi
    rw [append_row_grid]
    rw [cellAt_set_ne _ _ _ hi, cellAt_padGrid]
  have htarget : ∀ j, cellAt (append_row_grid grid vals) (next_row_register grid - 1) j =
      (writeDomainCells ((padGrid grid (next_row_register grid)).getD
        (next_row_register grid - 1) []) vals).getD j "" := by
    intro j
    rw [append_row_grid, cellAt]
    have hlt : next_row_register grid - 1 < (padGrid grid (next_row_register grid)).length := by
      rw [padGrid, List.length_append, List.length_replicate, next_row_register]
      omega
    have hrow : ((padGrid grid (next_row_register grid)).set (next_row_register grid - 1)
        (writeDomainCells ((padGrid grid (next_row_register grid)).getD
          (next_row_register grid - 1) []) vals)).getD (next_row_register grid - 1) [] =
        writeDomainCells ((padGrid grid (next_row_register grid)).getD
          (next_row_register grid - 1) []) vals := by
      rw [List.getD_eq_getElem?_getD, List.getElem?_set_self hlt]
      rfl
    rw [hrow]
  refine ⟨rfl, hframe, ?_, ?_, ?_, fun _ _ _ _ _ _ _ => rfl⟩
  · intro i hpop j
    have hle : i + 1 ≤ lastPopulated (colDate grid) := by
      apply populated_le_lastPopulated
      rw [colDate_getD]
      exact hpop
    exact hframe i j (by rw [next_row_register]; omega)
  · intro j hj
    rw [htarget j]
    rcases hj with hj | hj
    · rw [writeDomainCells_low _ _ hj, ← cellAt, cellAt_padGrid]
    · rw [writeDomainCells_high _ _ hj hv, ← cellAt, cellAt_padGrid]
  · intro j hj1 hj2
    rw [htarget j, writeDomainCells_mid _ _ hj1 hj2 hv]

/-- Witness for C5 (amended) at a concrete grid and row. -/
theorem append_row_placement_frame_witness :
    (["08.10.2025", "100", "Касса", "Осн", "", "", "Выручка"] : List String).length = 7 ∧
      (next_row_register [["x", "y", "Дата"]] =
          lastPopulated (colDate [["x", "y", "Дата"]]) + 1 ∧
        (∀ i j, i ≠ next_row_register [["x", "y", "Дата"]] - 1 →
          cellAt (append_row_grid [["x", "y", "Дата"]]
              ["08.10.2025", "100", "Касса", "Осн", "", "", "Выручка"]) i j =
            cellAt [["x", "y", "Дата"]] i j) ∧
        (∀ i, pyStrip (cellAt [["x", "y", "Дата"]] i 2) ≠ "" →
          ∀ j, cellAt (append_row_grid [["x", "y", "Дата"]]
              ["08.10.2025", "100", "Касса", "Осн", "", "", "Выручка"]) i j =
            cellAt [["x", "y", "Дата"]] i j) ∧
        (∀ j, j < 2 ∨ 9 ≤ j →
          cellAt (append_row_grid [["x", "y", "Дата"]]
              ["08.10.2025", "100", "Касса", "Осн", "", "", "Выручка"])
              (next_row_register [["x", "y", "Дата"]] - 1) j =
            cellAt [["x", "y", "Дата"]] (next_row_register [["x", "y", "Дата"]] - 1) j) ∧
        (∀ j, 2 ≤ j → j < 9 →
          cellAt (append_row_grid [["x", "y", "Дата"]]
              ["08.10.2025", "100", "Касса", "Осн", "", "", "Выручка"])
              (next_row_register [["x", "y", "Дата"]] - 1) j =
            (["08.10.2025", "100", "Касса", "Осн", "", "", "Выручка"] : List String).getD
              (j - 2) "") ∧
        (∀ d a w dir cp p art,
          append_operation_grid [["x", "y", "Дата"]] d a w dir cp p art =
            append_row_grid [["x", "y", "Дата"]] [d, a, w, dir, cp, p, art])) :=
  ⟨by decide, append_row_placement_frame [["x", "y", "Дата"]]
    ["08.10.2025", "100", "Касса", "Осн", "", "", "Выручка"] (by decide)⟩

/-! ## Claim C6: a transfer writes exactly two linked rows -/

/-- C6: a committed transfer with amount `a > 0` writes exactly two rows, a
source row with signed amount `-a` and a destination row with `a` (the two sum
to zero), both on the same date, carrying the transfer-article pair found by
`get_transfer_articles`. -/
theorem transfer_two_rows_spec (ledger : List RegRow) (date : String) (a : ℚ)
    (wfrom wto purpose direction : String) (purposeIn : Option String)
    (outs ins : List String) (artOut artIn : String)
    (hart : get_transfer_articles outs ins = some (artOut, artIn)) (ha : 0 < a) :
    append_transfer ledger date a wfrom wto purpose direction purposeIn artOut artIn =
      ledger ++
        [⟨date, some (-a), wfrom, direction, "", pyStrip purpose, artOut⟩,
         ⟨date, some a, wto, direction, "", pyStrip (purposeIn.getD purpose), artIn⟩] ∧
    (-a) < 0 ∧ 0 < a ∧ (-a) + a = 0 ∧
    is_transfer_article artOut = true ∧ is_transfer_article artIn = true ∧
    artOut ∈ outs ∧ artIn ∈ ins := by
  have habs : |a| = a := abs_of_pos ha
  refine ⟨by rw [append_transfer, habs], by linarith, ha, by ring, ?_⟩
  rw [get_transfer_articles] at hart
  rcases ho : outs.find? is_transfer_article with _ | o <;> rw [ho] at hart
  · cases hart
  rcases hi : ins.find? is_transfer_article with _ | i <;> rw [hi] at hart
  · cases hart
  have hoi : o = artOut ∧ i = artIn := by
    refine ⟨?_, ?_⟩ <;> cases hart <;> rfl
  obtain ⟨rfl, rfl⟩ := hoi
  exact ⟨List.find?_some ho, List.find?_some hi,
    List.mem_of_find?_eq_some ho, List.mem_of_find?_eq_some hi⟩

/-- Witness for C6 at a concrete article table and amount. -/
theorem transfer_two_rows_spec_witness :
    get_transfer_articles ["Аренда", "Перевод между счетами (выбытие)"]
        ["Выручка", "Перевод между счетами (поступление)"] =
      some ("Перевод между счетами (выбытие)", "Перевод между счетами (поступление)") ∧
    (0 : ℚ) < 5 ∧
    (append_transfer [] "07.10.2025" 5 "Касса" "Фонд1" "Отчисление в Фонд" "Осн"
        (some "Поступление в Фонд за 07.10.2025") "Перевод между счетами (выбытие)"
        "Перевод между счетами (поступление)" =
      [] ++
        [⟨"07.10.2025", some (-(5 : ℚ)), "Касса", "Осн", "",
            pyStrip "Отчисление в Фонд", "Перевод между счетами (выбытие)"⟩,
         ⟨"07.10.2025", some (5 : ℚ), "Фонд1", "Осн", "",
            pyStrip ((some "Поступление в Фонд за 07.10.2025").getD "Отчисление в Фонд"),
            "Перевод между счетами (поступление)"⟩] ∧
      (-(5 : ℚ)) < 0 ∧ (0 : ℚ) < 5 ∧ (-(5 : ℚ)) + 5 = 0 ∧
      is_transfer_article "Перевод между счетами (выбытие)" = true ∧
      is_transfer_article "Перевод между счетами (поступление)" = true ∧
      ("Перевод между счетами (выбытие)" : String) ∈
        ["Аренда", "Перевод между счетами (выбытие)"] ∧
      ("Перевод между счетами (поступление)" : String) ∈
        ["Выручка", "Перевод между счетами (поступление)"]) :=
  ⟨by decide, by decide,
    transfer_two_rows_spec [] "07.10.2025" 5 "Касса" "Фонд1" "Отчисление в Фонд" "Осн"
      (some "Поступление в Фонд за 07.10.2025") _ _ _ _ (by decide) (by decide)⟩

/-! ## Claim C3: per-rule rounding -/

/-- C3: the transferred amount is `newRevenue × percent / 100` rounded to the
nearest whole unit with `.5` away from zero; a rule whose rounded amount is
`≤ 0` produces no transfer; and the three numeric examples of the spec hold. -/
theorem rule_rounding_spec :
    (∀ newRevenue percent : ℚ, 0 < newRevenue →
      ruleTransfer newRevenue percent =
        roundHalfAwayFromZero (newRevenue * percent / 100)) ∧
    (∀ date artOut artIn direction : String, ∀ nr : ℚ,
      ∀ rules : List FundRule, ∀ led : List RegRow,
      ∀ p ∈ (runFundsLoop date artOut artIn direction nr rules led).2, 0 < p.2) ∧
    ruleTransfer 1000 (25 / 2) = 125 ∧
    ruleTransfer 333 10 = 33 ∧
    ruleTransfer 335 10 = 34 := by
  refine ⟨?_, ?_, ?_, ?_, ?_⟩
  · intro nr p _
    rw [ruleTransfer, roundHalfAwayFromZero]
    by_cases h : 0 ≤ nr * p / 100
    · rw [if_pos h, if_pos h, pyTrunc_of_nonneg (by linarith)]
    · rw [if_neg h, if_neg h, pyTrunc, if_neg (by push_neg at h ⊢; linarith)]
  · intro date artOut artIn direction nr rules led p hp
    rw [runFundsLoop_snd] at hp
    exact loopTransfers_pos nr rules p hp
  · rw [ruleTransfer_eq_floor (by norm_num)]
    norm_num
  · rw [ruleTransfer_eq_floor (by norm_num)]
    norm_num
  · rw [ruleTransfer_eq_floor (by norm_num)]
    norm_num

/-- Witness for C3: the rounding identity applied at `newRevenue = 333`,
`percent = 10`. -/
theorem rule_rounding_spec_witness :
    (0 : ℚ) < 333 ∧
      ruleTransfer 333 10 = roundHalfAwayFromZero (333 * 10 / 100) :=
  ⟨by norm_num, rule_rounding_spec.1 333 10 (by norm_num)⟩

/-! Percent bookkeeping -/

theorem totalPercent_eq_active (rules : List FundRule)
    (hp : ∀ r ∈ rules, 0 ≤ r.percent) :
    totalPercent rules = totalPercentSpec rules := by
  induction rules with
  | nil => rfl
  | cons r rs ih =>
    have hr : 0 ≤ r.percent := hp r (List.mem_cons_self r rs)
    have hrs : ∀ x ∈ rs, 0 ≤ x.percent := fun x hx => hp x (List.mem_cons_of_mem r hx)
    rw [totalPercent, totalPercentSpec, List.filter_cons, List.filter_cons]
    by_cases hl : ruleListed r = true
    · by_cases hpos : 0 < r.percent
      · have hact : ruleActive r = true := by
          rw [ruleActive, hl, Bool.true_and, decide_eq_true_eq]; exact hpos
        rw [if_pos hl, if_pos hact, List.map_cons, List.sum_cons, List.map_cons,
          List.sum_cons, ← totalPercent, ← totalPercentSpec, ih hrs]
      · have hz : r.percent = 0 := le_antisymm (by linarith [lt_of_le_of_ne hr]) hr
        have hact : ¬(ruleActive r = true) := by
          rw [ruleActive, hl, Bool.true_and, decide_eq_true_eq]; exact hpos
        rw [if_pos hl, if_neg hact, List.map_cons, List.sum_cons, hz, zero_add,
          ← totalPercent, ← totalPercentSpec, ih hrs]
    · have hact : ¬(ruleActive r = true) := by
        rw [ruleActive]
        intro hcon
        exact hl (Bool.and_elim_left hcon)
      rw [if_neg hl, if_neg hact, ← totalPercent, ← totalPercentSpec, ih hrs]

/-! ## Claim C2: totalPercent and the newRevenue back-calculation -/

/-- C2 counterexample: at `totalInflow = 49`, `alreadyDistributedTotal = 1`,
`totalPercent = 13`, the pass computes `49 - round(1·100/13, 2) = 41.31`, not
the claim's exact `49 - 1·100/13 = 537/13 = 41.3077...`. -/
theorem new_revenue_not_exact_formula :
    newRevenueCode 49 1 13 ≠ 49 - 1 * 100 / 13 := by
  have h1 : rhe (1 * 100 / 13 * 100) = 769 := by
    rw [rhe]
    norm_num
  have h2 : round2 (1 * 100 / 13) = 769 / 100 := by
    rw [round2, h1]
    norm_num
  have h3 : rhe ((49 - 769 / 100) * 100) = 4131 := by
    rw [rhe]
    norm_num
  have hcode : newRevenueCode 49 1 13 = 4131 / 100 := by
    rw [newRevenueCode, if_pos (by norm_num), h2, round2, h3]
    norm_num
  rw [hcode]
  norm_num

/-- C2 (amended): `totalPercent` sums the percents of the listed rules, which
equals the sum over active rules whenever no percent is negative (the data
model allows none); the new revenue is `round2(totalInflow − round2(A×100/P))`
— within `1/100` of the claim's exact expression — when `P > 0` and `A > 0`,
otherwise exactly `totalInflow`; and whenever the computed new revenue is
`≤ 0`, the pass writes nothing and reports the distribution already done. -/
theorem funds_new_revenue_spec (rules : List FundRule)
    (hp : ∀ r ∈ rules, 0 ≤ r.percent) :
    totalPercent rules = totalPercentSpec rules ∧
    (∀ R A P : ℚ, 0 < P → 0 < A →
      newRevenueCode R A P = round2 (R - round2 (A * 100 / P)) ∧
      |newRevenueCode R A P - (R - A * 100 / P)| ≤ 1 / 100) ∧
    (∀ R A P : ℚ, ¬(0 < P ∧ 0 < A) → newRevenueCode R A P = R) ∧
    (∀ ledger : List RegRow, ∀ date artOut artIn direction : String,
      0 < get_daily_income ledger artIn date →
      rules ≠ [] →
      newRevenueCode (get_daily_income ledger artIn date)
          (totalAlready ledger date) (totalPercent rules) ≤ 0 →
      run_funds_logic ledger rules date artOut artIn direction =
        (FundResult.alreadyDone, ledger)) := by
  refine ⟨totalPercent_eq_active rules hp, ?_, ?_, ?_⟩
  · intro R A P hP hA
    have hcode : newRevenueCode R A P = round2 (R - round2 (A * 100 / P)) := by
      rw [newRevenueCode, if_pos ⟨hP, hA⟩]
    refine ⟨hcode, ?_⟩
    obtain ⟨hb1, hb2⟩ := round2_bounds (R - round2 (A * 100 / P))
    obtain ⟨hc1, hc2⟩ := round2_bounds (A * 100 / P)
    rw [hcode, abs_le]
    constructor <;> linarith
  · intro R A P h
    rw [newRevenueCode, if_neg h]
  · intro ledger date artOut artIn direction hR hrules hNR
    rw [run_funds_logic]
    rw [if_neg (by linarith), if_neg (by simpa [List.isEmpty_iff] using hrules),
      if_pos hNR]

/-- Witness for C2 (amended) at one rule `{Касса → Фонд1, 50%}` and concrete
revenue figures. -/
theorem funds_new_revenue_spec_witness :
    (∀ r ∈ [(⟨"Касса", "Фонд1", 50⟩ : FundRule)], 0 ≤ r.percent) ∧
      totalPercent [(⟨"Касса", "Фонд1", 50⟩ : FundRule)] =
        totalPercentSpec [(⟨"Касса", "Фонд1", 50⟩ : FundRule)] ∧
      ((0 : ℚ) < 13 → (0 : ℚ) < 1 →
        newRevenueCode 49 1 13 = round2 (49 - round2 (1 * 100 / 13)) ∧
        |newRevenueCode 49 1 13 - (49 - 1 * 100 / 13)| ≤ 1 / 100) := by
  have hp : ∀ r ∈ [(⟨"Касса", "Фонд1", 50⟩ : FundRule)], 0 ≤ r.percent := by
    intro r hr
    rcases List.mem_singleton.mp hr with rfl
    norm_num
  exact ⟨hp, (funds_new_revenue_spec _ hp).1,
    fun h13 h1 => (funds_new_revenue_spec _ hp).2.1 49 1 13 h13 h1⟩

/-! ## Claim C4: daily inflow read -/

theorem centGrid_add {a b : ℚ} (ha : centGrid a) (hb : centGrid b) :
    centGrid (a + b) := by
  obtain ⟨za, hza⟩ := ha
  obtain ⟨zb, hzb⟩ := hb
  exact ⟨za + zb, by push_cast; linarith⟩

theorem centGrid_sum {l : List ℚ} (h : ∀ x ∈ l, centGrid x) : centGrid l.sum := by
  induction l with
  | nil => exact ⟨0, by norm_num⟩
  | cons x xs ih =>
    rw [List.sum_cons]
    exact centGrid_add (h x (List.mem_cons_self x xs))
      (ih fun y hy => h y (List.mem_cons_of_mem x hy))

/-- C4: with the transfer-inflow article designated (non-empty) and whole-cent
amounts in the register, `get_daily_income` returns exactly the sum of the
positive amounts of the rows bearing the date, excluding every row whose
article equals the transfer-inflow article — fund transfers are never counted
as revenue. -/
theorem daily_income_spec (ledger : List RegRow) (artIn date : String)
    (h1 : artIn ≠ "")
    (h2 : ∀ r ∈ ledger.drop 1, ∀ x : ℚ, r.amount = some x → centGrid x) :
    get_daily_income ledger artIn date = dailyIncomeSpec ledger artIn date := by
  have hfeq : ∀ r ∈ ledger.drop 1, rowIncomeOk artIn date r =
      (pyStrip r.date == pyStrip date
        && (match r.amount with | none => false | some a => decide (0 < a))
        && pyStrip r.article != artIn) := by
    intro r _
    rw [rowIncomeOk]
    have hne : (artIn != "") = true := by
      rw [bne_iff_ne]; exact h1
    rw [hne, Bool.true_and]
    rfl
  rw [get_daily_income, dailyIncomeSpec, List.filter_congr hfeq]
  apply round2_eq_self
  apply centGrid_sum
  intro x hx
  obtain ⟨r, hr, hrx⟩ := List.mem_map.mp hx
  have hmem := (List.mem_filter.mp hr).1
  have hok := (List.mem_filter.mp hr).2
  simp only [Bool.and_eq_true] at hok
  obtain ⟨⟨_, hamt⟩, _⟩ := hok
  rcases hra : r.amount with _ | a
  · rw [hra] at hamt; simp at hamt
  · rw [← hrx, amountOf, hra]
    exact h2 r hmem a hra

/-- Witness for C4 at a two-row register (header plus one revenue row). -/
theorem daily_income_spec_witness :
    ("Перевод между счетами (поступление)" : String) ≠ "" ∧
      (∀ r ∈ ([⟨"Дата", none, "", "", "", "", ""⟩,
          ⟨"07.10.2025", some 49, "Касса", "Осн", "", "", "Выручка"⟩] :
            List RegRow).drop 1,
        ∀ x : ℚ, r.amount = some x → centGrid x) ∧
      get_daily_income
          [⟨"Дата", none, "", "", "", "", ""⟩,
            ⟨"07.10.2025", some 49, "Касса", "Осн", "", "", "Выручка"⟩]
          "Перевод между счетами (поступление)" "07.10.2025" =
        dailyIncomeSpec
          [⟨"Дата", none, "", "", "", "", ""⟩,
            ⟨"07.10.2025", some 49, "Касса", "Осн", "", "", "Выручка"⟩]
          "Перевод между счетами (поступление)" "07.10.2025" := by
  have h2 : ∀ r ∈ ([⟨"Дата", none, "", "", "", "", ""⟩,
      ⟨"07.10.2025", some 49, "Касса", "Осн", "", "", "Выручка"⟩] :
        List RegRow).drop 1,
      ∀ x : ℚ, r.amount = some x → centGrid x := by
    intro r hr x hx
    simp only [List.drop_succ_cons, List.drop_zero, List.mem_singleton] at hr
    subst hr
    simp only [Option.some.injEq] at hx
    exact ⟨4900, by rw [← hx]; norm_num⟩
  exact ⟨by decide, h2, daily_income_spec _ _ _ (by decide) h2⟩

/-! ## Claim C7: the draft amount is always positive -/

theorem buildTransferOp_amount {today : String} {wallets : List String}
    {amount : ℚ} {rest : String} {d : ShortOp}
    (h : buildTransferOp today wallets amount rest = some d) :
    d.amount = amount ∧ d.type = "transfer" := by
  rw [buildTransferOp] at h
  repeat' split at h
  all_goals cases h
  exact ⟨rfl, rfl⟩

theorem buildInOutOp_amount {today : String} {wallets : List String}
    {opType : String} {amount : ℚ} {rest : String} {d : ShortOp}
    (h : buildInOutOp today wallets opType amount rest = some d) :
    d.amount = amount ∧ d.type = opType := by
  rw [buildInOutOp] at h
  repeat' split at h
  all_goals cases h
  exact ⟨rfl, rfl⟩

theorem parse_short_form_pos {today text : String} {wallets : List String}
    {d : ShortOp} (h : parse_short_form today text wallets = some d) :
    0 < d.amount := by
  simp only [parse_short_form] at h
  split at h
  · cases h
  split at h
  · cases h
  split at h
  · cases h
  split at h
  · cases h
  split at h
  · cases h
  next hguard =>
  push_neg at hguard
  split at h
  · rw [(buildTransferOp_amount h).1]; exact hguard
  · rw [(buildInOutOp_amount h).1]; exact hguard

theorem amountStep_preserves (s : Option ℚ) (e : AmountEvent)
    (hs : ∀ a : ℚ, s = some a → 0 < a) :
    ∀ a : ℚ, amountStep s e = some a → 0 < a := by
  cases e with
  | guided text =>
    intro a ha
    rw [amountStep] at ha
    split at ha
    · split_ifs at ha with h0
      · cases ha; exact h0
      · exact hs a ha
    · exact hs a ha
  | editAmount text =>
    intro a ha
    rw [amountStep] at ha
    split at ha
    · split_ifs at ha with h0
      · cases ha; exact h0
      · exact hs a ha
    · exact hs a ha
  | fastPath today text wallets =>
    intro a ha
    rw [amountStep] at ha
    split at ha
    next d hpf =>
      cases ha
      exact parse_short_form_pos hpf
    next => exact hs a ha
  | commit =>
    intro a ha
    rw [amountStep] at ha
    cases ha

theorem foldl_amountStep_inv (evs : List AmountEvent) :
    ∀ s : Option ℚ, (∀ a : ℚ, s = some a → 0 < a) →
      ∀ a : ℚ, evs.foldl amountStep s = some a → 0 < a := by
  induction evs with
  | nil => intro s hs; exact hs
  | cons e es ih =>
    intro s hs
    rw [List.foldl_cons]
    exact ih (amountStep s e) (amountStep_preserves s e hs)

/-- C7: in every reachable dialog state the draft amount, once set, is
strictly positive: guided amount entry leaves the state unchanged on
non-positive or unparsable input, the fast-path parser only ever produces
positive amounts, the outflow sign is applied at commit to the committed row
only while the draft itself is cleared. -/
theorem draft_amount_invariant :
    (∀ evs : List AmountEvent, ∀ a : ℚ,
      evs.foldl amountStep none = some a → 0 < a) ∧
    (∀ s : Option ℚ, ∀ text : String,
      (∀ a : ℚ, parse_amount (pyStrip text) = some a → a ≤ 0) →
      amountStep s (.guided text) = s) ∧
    (∀ today text : String, ∀ wallets : List String, ∀ d : ShortOp,
      parse_short_form today text wallets = some d → 0 < d.amount) ∧
    (∀ s : Option ℚ, amountStep s .commit = none) ∧
    (∀ direction : String, ∀ s : SessionState, ∀ d : ShortOp, s.draft = some d →
      (pressConfirm direction s).draft = none ∧
      (pressConfirm direction s).ledger =
        append_operation s.ledger d.date
          (if d.type == "out" then -|d.amount| else d.amount) d.wallet direction
          d.counterparty d.purpose s.article) := by
  refine ⟨?_, ?_, fun _ _ _ _ h => parse_short_form_pos h, fun s => rfl, ?_⟩
  · intro evs
    exact foldl_amountStep_inv evs none (fun a ha => by cases ha)
  · intro s text hbad
    rw [amountStep]
    split
    next a0 hpa => rw [if_neg (not_lt.mpr (hbad a0 hpa))]
    next => rfl
  · intro direction s d h
    rw [pressConfirm, h]
    exact ⟨rfl, rfl⟩

/-- Witness for C7: the state reached by entering "100" holds amount 100 > 0. -/
theorem draft_amount_invariant_witness :
    ([AmountEvent.guided "100"].foldl amountStep none = some 100) ∧ (0 : ℚ) < 100 := by
  have hparse : parse_amount (pyStrip "100") = some 100 := by
    simp +decide [parse_amount, pyStrip, stripList, isWs, pyFloatSigned, pyFloatCore,
      digitsVal, asString_data]
  have heval : [AmountEvent.guided "100"].foldl amountStep none = some 100 := by
    rw [List.foldl_cons, List.foldl_nil, amountStep, hparse]
    norm_num
  exact ⟨heval, draft_amount_invariant.1 [AmountEvent.guided "100"] 100 heval⟩

/-! ## Claim C9: the free-text fast path -/

theorem matchWalletAux_max (s : String) (l : List String)
    (hsort : l.Sorted lenDescOrder) (w after : String)
    (h : matchWalletAux s l = (some w, after)) :
    w ∈ l ∧ (pyLower w).data.isPrefixOf (pyLower s).data = true ∧
    ∀ w2 ∈ l, (pyLower w2).data.isPrefixOf (pyLower s).data = true →
      w2.data.length ≤ w.data.length := by
  induction l with
  | nil => simp [matchWalletAux] at h
  | cons x xs ih =>
    rw [matchWalletAux] at h
    obtain ⟨hx_rel, hxs_sorted⟩ := List.sorted_cons.mp hsort
    split_ifs at h with hx
    · cases h
      refine ⟨List.mem_cons_self _ _, hx, ?_⟩
      intro w2 hw2 _
      rcases List.mem_cons.mp hw2 with rfl | hw2
      · exact le_refl _
      · exact hx_rel w2 hw2
    · obtain ⟨hmem, hpre, hmax⟩ := ih hxs_sorted h
      refine ⟨List.mem_cons_of_mem x hmem, hpre, ?_⟩
      intro w2 hw2 hp2
      rcases List.mem_cons.mp hw2 with rfl | hw2
      · exact absurd hp2 hx
      · exact hmax w2 hw2 hp2

theorem matchWallet_spec (wallets : List String) (s w after : String)
    (h : matchWallet wallets s = (some w, after)) :
    w ∈ wallets ∧
    (pyLower w).data.isPrefixOf (pyLower (pyStrip s)).data = true ∧
    ∀ w2 ∈ wallets, (pyLower w2).data.isPrefixOf (pyLower (pyStrip s)).data = true →
      w2.data.length ≤ w.data.length := by
  rw [matchWallet] at h
  have hsorted : (sortLenDesc wallets).Sorted lenDescOrder := by
    rw [sortLenDesc]
    exact List.sorted_insertionSort lenDescOrder wallets
  obtain ⟨hmem, hpre, hmax⟩ := matchWalletAux_max (pyStrip s) _ hsorted w after h
  have hperm := List.perm_insertionSort lenDescOrder wallets
  exact ⟨hperm.mem_iff.mp hmem, hpre,
    fun w2 hw2 hp => hmax w2 (hperm.mem_iff.mpr hw2) hp⟩

theorem parse_short_form_type {today text : String} {wallets : List String}
    {d : ShortOp} (h : parse_short_form today text wallets = some d) :
    ∃ ar rs, classifyFirst (pySplitWs (pyStrip text)) = some (d.type, ar, rs) := by
  simp only [parse_short_form] at h
  split at h
  · cases h
  split at h
  · cases h
  split at h
  · cases h
  next opType amountRaw rest heq =>
    split at h
    · cases h
    split at h
    · cases h
    split at h
    next htr =>
      have hty := (buildTransferOp_amount h).2
      exact ⟨amountRaw, rest, by rw [hty, ← htr]; exact heq⟩
    next _ =>
      have hty := (buildInOutOp_amount h).2
      exact ⟨amountRaw, rest, by rw [hty]; exact heq⟩

/-- C9: the wallet is chosen by longest-prefix match against the known wallet
list; a bare leading positive number implies an inflow; and the two concrete
scenarios of the spec hold (including the parenthesized counterparty and the
trailing memo). -/
theorem short_form_parser_spec :
    (∀ wallets : List String, ∀ s w after : String,
      matchWallet wallets s = (some w, after) →
      w ∈ wallets ∧
      (pyLower w).data.isPrefixOf (pyLower (pyStrip s)).data = true ∧
      ∀ w2 ∈ wallets, (pyLower w2).data.isPrefixOf (pyLower (pyStrip s)).data = true →
        w2.data.length ≤ w.data.length) ∧
    matchWallet ["Cash", "Cash Register"] "Cash Register 500 note" =
      (some "Cash Register", "500 note") ∧
    (∀ today text : String, ∀ wallets : List String, ∀ d : ShortOp,
      ∀ first0 : String, ∀ rest : List String,
      parse_short_form today text wallets = some d →
      pySplitWs (pyStrip text) = first0 :: rest →
      pyLower first0 ∉ TYPE_OUT → pyLower first0 ∉ TYPE_IN →
      pyLower first0 ≠ "перевод" → pyLower first0 ≠ "-" →
      d.type = "in") ∧
    parse_short_form "07.10.2025" "5000 Bank (Acme) invoice 42" ["Bank", "Cash"] =
      some { type := "in", date := "07.10.2025", amount := 5000, wallet := "Bank",
             counterparty := "Acme", purpose := "invoice 42" } := by
  refine ⟨matchWallet_spec, by decide, ?_, ?_⟩
  · intro today text wallets d first0 rest h hsplit hout hin htr hminus
    obtain ⟨ar, rs, hcf⟩ := parse_short_form_type h
    rw [hsplit] at hcf
    simp only [classifyFirst] at hcf
    rw [if_neg htr, if_neg (by push_neg; exact ⟨hout, hminus⟩), if_neg hin] at hcf
    split at hcf
    next a heqa =>
      split_ifs at hcf with ha
      have h2 := Option.some.inj hcf
      have h3 := congrArg Prod.fst h2
      exact h3.symm
    next heqa => cases hcf
  · simp +decide [parse_short_form, buildInOutOp, classifyFirst, pySplitWs,
      splitWsAux, isWs, pyStrip, stripList, pyLower, ruLowerChar, TYPE_OUT, TYPE_IN,
      replaceCommaDot, joinWords, joinWordsAux, parse_amount, pyFloatSigned,
      pyFloatCore, digitsVal, asString_data, matchWallet, matchWalletAux,
      sortLenDesc, lenDescOrder, List.insertionSort, List.orderedInsert,
      extractCounterpartyPurpose]

/-- Witness for C9: the maximality property applied at the spec's concrete
wallet-matching scenario. -/
theorem short_form_parser_spec_witness :
    matchWallet ["Cash", "Cash Register"] "Cash Register 500 note" =
        (some "Cash Register", "500 note") ∧
      ("Cash Register" : String) ∈ ["Cash", "Cash Register"] ∧
      (pyLower "Cash Register").data.isPrefixOf
        (pyLower (pyStrip "Cash Register 500 note")).data = true ∧
      ∀ w2 ∈ ["Cash", "Cash Register"],
        (pyLower w2).data.isPrefixOf
          (pyLower (pyStrip "Cash Register 500 note")).data = true →
        w2.data.length ≤ ("Cash Register" : String).data.length := by
  have h := short_form_parser_spec.1 ["Cash", "Cash Register"]
    "Cash Register 500 note" "Cash Register" "500 note" (by decide)
  exact ⟨by decide, h.1, h.2.1, h.2.2⟩

/-! ## Claim C1: fund distribution across two consecutive calls -/

theorem ex_call1 : run_funds_logic exLedger exRules "07.10.2025" exArtOut exArtIn "Осн" =
    (FundResult.done [("Фонд1", 1)], exLedger ++ [exRowOut, exRowIn]) := by
  have hR : get_daily_income exLedger exArtIn "07.10.2025" = 49 := by
    rw [get_daily_income,
      show (exLedger.drop 1).filter (rowIncomeOk exArtIn "07.10.2025") = [exIncome49] from by decide]
    norm_num [exIncome49, amountOf, round2, rhe]
  have hA : totalAlready exLedger "07.10.2025" = 0 := by
    rw [totalAlready_eq_sum,
      show (exLedger.drop 1).filter (rowFundOk "07.10.2025") = [] from by decide]
    simp
  have hP : totalPercent exRules = 4 := by
    rw [totalPercent, show exRules.filter ruleListed = exRules from by decide]
    norm_num [exRules]
  have hNR : newRevenueCode 49 0 4 = 49 := by
    rw [newRevenueCode, if_neg (by norm_num)]
  have hts : loopTransfers 49 exRules = [("Фонд1", 1)] := by
    rw [exRules, loopTransfers_cons, loopTransfers_cons, loopTransfers,
      show ruleTransfer 49 (FundRule.mk "Касса" "Фонд1" 3).percent = 1 from by
        rw [ruleTransfer_eq_floor (by norm_num)]; norm_num,
      show ruleTransfer 49 (FundRule.mk "Касса" "Фонд2" 1).percent = 0 from by
        rw [ruleTransfer_eq_floor (by norm_num)]; norm_num]
    simp +decide [ruleActive, ruleListed, pyStrip, stripList, isWs, asString_data]
  have hrows : loopRows "07.10.2025" exArtOut exArtIn "Осн" 49 exRules = [exRowOut, exRowIn] := by
    rw [exRules, loopRows, List.map_cons, List.map_cons, List.map_nil, ruleBlock, ruleBlock,
      show ruleTransfer 49 (FundRule.mk "Касса" "Фонд1" 3).percent = 1 from by
        rw [ruleTransfer_eq_floor (by norm_num)]; norm_num,
      show ruleTransfer 49 (FundRule.mk "Касса" "Фонд2" 1).percent = 0 from by
        rw [ruleTransfer_eq_floor (by norm_num)]; norm_num]
    rw [if_pos (⟨by decide, by norm_num⟩ :
        ruleActive (FundRule.mk "Касса" "Фонд1" 3) = true ∧ (0:ℤ) < 1),
      if_neg (fun h => absurd h.2 (by norm_num))]
    simp only [append_transfer, List.nil_append, List.flatten, List.append_nil]
    rw [exRowOut, exRowIn]
    norm_num
    constructor
    · constructor <;> decide
    · constructor <;> decide
  simp only [run_funds_logic, hR, hA, hP, hNR]
  rw [if_neg (by norm_num : ¬((49:ℚ) ≤ 0)),
    if_neg (by decide : ¬(exRules.isEmpty = true)),
    if_neg (by norm_num : ¬((49:ℚ) ≤ 0)),
    runFundsLoop_fst, runFundsLoop_snd, hts, hrows]

theorem ex_call2 : (run_funds_logic (exLedger ++ [exRowOut, exRowIn])
    exRules "07.10.2025" exArtOut exArtIn "Осн").1 = FundResult.done [("Фонд1", 1)] := by
  have hR : get_daily_income (exLedger ++ [exRowOut, exRowIn]) exArtIn "07.10.2025" = 49 := by
    rw [get_daily_income,
      show ((exLedger ++ [exRowOut, exRowIn]).drop 1).filter (rowIncomeOk exArtIn "07.10.2025") =
        [exIncome49] from by decide]
    norm_num [exIncome49, amountOf, round2, rhe]
  have hA : totalAlready (exLedger ++ [exRowOut, exRowIn]) "07.10.2025" = 1 := by
    rw [totalAlready_eq_sum,
      show ((exLedger ++ [exRowOut, exRowIn]).drop 1).filter (rowFundOk "07.10.2025") =
        [exRowIn] from by decide]
    norm_num [exRowIn, amountOf]
  have hP : totalPercent exRules = 4 := by
    rw [totalPercent, show exRules.filter ruleListed = exRules from by decide]
    norm_num [exRules]
  have hNR : newRevenueCode 49 1 4 = 24 := by
    rw [newRevenueCode, if_pos (by norm_num)]
    rw [show round2 (1 * 100 / 4) = 25 from by norm_num [round2, rhe]]
    norm_num [round2, rhe]
  have hts : loopTransfers 24 exRules = [("Фонд1", 1)] := by
    rw [exRules, loopTransfers_cons, loopTransfers_cons, loopTransfers,
      show ruleTransfer 24 (FundRule.mk "Касса" "Фонд1" 3).percent = 1 from by
        rw [ruleTransfer_eq_floor (by norm_num)]; norm_num,
      show ruleTransfer 24 (FundRule.mk "Касса" "Фонд2" 1).percent = 0 from by
        rw [ruleTransfer_eq_floor (by norm_num)]; norm_num]
    simp +decide [ruleActive, ruleListed, pyStrip, stripList, isWs, asString_data]
  simp only [run_funds_logic, hR, hA, hP, hNR]
  rw [if_neg (by norm_num : ¬((49:ℚ) ≤ 0)),
    if_neg (by decide : ¬(exRules.isEmpty = true)),
    if_neg (by norm_num : ¬((24:ℚ) ≤ 0)),
    runFundsLoop_snd, hts]

/-- C1 counterexample: with inflow 49 and the two rules 3% and 1%, the first
pass transfers 1 (the 1% rule rounds to 0 and is skipped); the second pass,
with no new inflow recorded in between, backs out `1·100/4 = 25`, computes new
revenue 24 and transfers 1 more — the second call does not write zero
additional transfer rows and does not short-circuit. -/
theorem fund_distribution_not_idempotent :
    0 < doneTotal (run_funds_logic
        ((run_funds_logic exLedger exRules "07.10.2025" exArtOut exArtIn "Осн").2)
        exRules "07.10.2025" exArtOut exArtIn "Осн").1 := by
  rw [ex_call1]
  have h2 := ex_call2
  rw [show (FundResult.done [("Фонд1", 1)], exLedger ++ [exRowOut, exRowIn]).2 =
    exLedger ++ [exRowOut, exRowIn] from rfl, h2]
  rw [doneTotal]
  norm_num

theorem totalAlready_nonneg (ledger : List RegRow) (date : String) :
    0 ≤ totalAlready ledger date := by
  rw [totalAlready_eq_sum]
  apply List.sum_nonneg
  intro x hx
  obtain ⟨r, hr, hrx⟩ := List.mem_map.mp hx
  have hok := (List.mem_filter.mp hr).2
  rw [rowFundOk] at hok
  simp only [Bool.and_eq_true] at hok
  obtain ⟨⟨_, hamt⟩, _⟩ := hok
  rcases hra : r.amount with _ | a
  · rw [hra] at hamt; simp at hamt
  · rw [hra] at hamt
    simp only [decide_eq_true_eq] at hamt
    rw [← hrx, amountOf, hra]
    exact le_of_lt hamt

/-! Aggregate bounds over the active rules -/

theorem sum_transferPlus_bounds (nr : ℚ) (hnr : 0 < nr) (l : List FundRule)
    (hl : ∀ r ∈ l, 0 < r.percent) :
    nr * ((l.map FundRule.percent).sum) / 100 - (l.length : ℚ) / 2 ≤
        (((l.map (transferPlus nr)).sum : ℤ) : ℚ) ∧
      (((l.map (transferPlus nr)).sum : ℤ) : ℚ) ≤
        nr * ((l.map FundRule.percent).sum) / 100 + (l.length : ℚ) / 2 := by
  induction l with
  | nil => norm_num
  | cons r rest ih =>
    obtain ⟨ih1, ih2⟩ := ih (fun x hx => hl x (List.mem_cons_of_mem r hx))
    obtain ⟨hb1, hb2⟩ := transferPlus_bounds
      (hl r (List.mem_cons_self r rest)) hnr
    simp only [List.map_cons, List.sum_cons, List.length_cons]
    push_cast
    have hexp : nr * (r.percent + (rest.map FundRule.percent).sum) / 100 =
        nr * r.percent / 100 + nr * ((rest.map FundRule.percent).sum) / 100 := by
      ring
    constructor <;> (rw [hexp]; push_cast at ih1 ih2 ⊢; linarith)

theorem sum_percent_nonneg (l : List FundRule) (h : ∀ r ∈ l, 0 < r.percent) :
    0 ≤ (l.map FundRule.percent).sum := by
  apply List.sum_nonneg
  intro x hx
  obtain ⟨r, hr, rfl⟩ := List.mem_map.mp hx
  exact le_of_lt (h r hr)

theorem sum_percent_pos (l : List FundRule) (h : ∀ r ∈ l, 0 < r.percent)
    (hne : l ≠ []) : 0 < (l.map FundRule.percent).sum := by
  rcases l with _ | ⟨r, rest⟩
  · exact absurd rfl hne
  · rw [List.map_cons, List.sum_cons]
    have h1 : 0 < r.percent := h r (List.mem_cons_self r rest)
    have h2 : 0 ≤ (rest.map FundRule.percent).sum :=
      sum_percent_nonneg rest (fun x hx => h x (List.mem_cons_of_mem r hx))
    linarith

theorem sum_percent_le_hundred_mul (l : List FundRule)
    (h : ∀ r ∈ l, r.percent ≤ 100) :
    (l.map FundRule.percent).sum ≤ 100 * (l.length : ℚ) := by
  induction l with
  | nil => norm_num
  | cons r rest ih =>
    have h1 : r.percent ≤ 100 := h r (List.mem_cons_self r rest)
    have h2 := ih (fun x hx => h x (List.mem_cons_of_mem r hx))
    simp only [List.map_cons, List.sum_cons, List.length_cons]
    push_cast
    linarith

theorem mem_active_percent_pos {rules : List FundRule} {r : FundRule}
    (h : r ∈ rules.filter ruleActive) : 0 < r.percent := by
  have hact := (List.mem_filter.mp h).2
  rw [ruleActive, Bool.and_eq_true] at hact
  exact of_decide_eq_true hact.2

theorem newRevenueCode_bounds {R A P : ℚ} (hR : centGrid R) (hA : 0 ≤ A)
    (hP : 0 < P) :
    R - A * 100 / P - 1 / 200 ≤ newRevenueCode R A P ∧
      newRevenueCode R A P ≤ R - A * 100 / P + 1 / 200 := by
  rcases eq_or_lt_of_le hA with hA0 | hApos
  · rw [newRevenueCode,
      if_neg (fun hcon => by rw [← hA0] at hcon; exact lt_irrefl 0 hcon.2), ← hA0]
    norm_num
  · rw [newRevenueCode, if_pos ⟨hP, hApos⟩]
    have hid : round2 (R - round2 (A * 100 / P)) = R - round2 (A * 100 / P) :=
      round2_eq_self (centGrid_sub hR (centGrid_round2 _))
    rw [hid]
    obtain ⟨hb1, hb2⟩ := round2_bounds (A * 100 / P)
    constructor <;> linarith

/-! How the rows of one pass are seen by the next pass -/

theorem ruleBlock_income_false {artIn : String} (hIn1 : artIn ≠ "")
    (hIn2 : pyStrip artIn = artIn) (date artOut direction : String) (nr : ℚ)
    (r : FundRule) :
    ∀ row ∈ ruleBlock date artOut artIn direction nr r,
      rowIncomeOk artIn date row = false := by
  intro row hrow
  rw [ruleBlock] at hrow
  split_ifs at hrow with hc
  · rw [append_transfer, List.nil_append] at hrow
    have htq : (0 : ℚ) < ((ruleTransfer nr r.percent : ℤ) : ℚ) := by
      exact_mod_cast hc.2
    rcases List.mem_cons.mp hrow with rfl | hrow2
    · have hneg : ¬(0 < -|((ruleTransfer nr r.percent : ℤ) : ℚ)|) := by
        rw [abs_of_pos htq]
        linarith
      have hb : decide (0 < -|((ruleTransfer nr r.percent : ℤ) : ℚ)|) = false :=
        decide_eq_false hneg
      simp [rowIncomeOk, hb]
    · rcases List.mem_singleton.mp hrow2 with rfl
      have h1 : (artIn != "") = true := bne_iff_ne.mpr hIn1
      have h2 : (pyStrip artIn == artIn) = true := by
        rw [hIn2]
        exact beq_self_eq_true artIn
      simp [rowIncomeOk, h1, h2]
  · cases hrow

theorem markerIn_prefix_purpose (date : String) :
    markerIn.data <+: stripList ("Поступление в Фонд за " ++ date).data := by
  apply strip_keeps_prefix
  · refine ⟨(" за " ++ date).data, ?_⟩
    rw [show ("Поступление в Фонд за " ++ date).data =
        ("Поступление в Фонд за ").data ++ date.data from String.data_append .. ,
      show ("Поступление в Фонд за ").data = markerIn.data ++ (" за ").data from by decide,
      show (" за " ++ date).data = (" за ").data ++ date.data from String.data_append .. ,
      List.append_assoc]
  · intro c cs hm
    rw [show markerIn.data = ['П', 'о', 'с', 'т', 'у', 'п', 'л', 'е', 'н', 'и', 'е',
      ' ', 'в', ' ', 'Ф', 'о', 'н', 'д'] from by decide] at hm
    cases hm
    decide
  · intro c cs hm
    rw [show markerIn.data.reverse = ['д', 'н', 'о', 'Ф', ' ', 'в', ' ', 'е', 'и',
      'н', 'е', 'л', 'п', 'у', 'т', 'с', 'о', 'П'] from by decide] at hm
    cases hm
    decide

theorem ruleBlock_fund_filter (date artOut artIn direction : String) (nr : ℚ)
    (r : FundRule) :
    ((ruleBlock date artOut artIn direction nr r).filter (rowFundOk date)).map amountOf =
      if ruleActive r = true ∧ 0 < ruleTransfer nr r.percent
      then [((ruleTransfer nr r.percent : ℤ) : ℚ)] else [] := by
  by_cases hc : ruleActive r = true ∧ 0 < ruleTransfer nr r.percent
  · rw [ruleBlock, if_pos hc, if_pos hc, append_transfer, List.nil_append]
    have htq : (0 : ℚ) < ((ruleTransfer nr r.percent : ℤ) : ℚ) := by
      exact_mod_cast hc.2
    have habs : |((ruleTransfer nr r.percent : ℤ) : ℚ)| =
        ((ruleTransfer nr r.percent : ℤ) : ℚ) := abs_of_pos htq
    have hout : rowFundOk date
        ⟨date, some (-|((ruleTransfer nr r.percent : ℤ) : ℚ)|), pyStrip r.source,
          direction, "", pyStrip "Отчисление в Фонд", artOut⟩ = false := by
      have hneg : ¬(0 < -|((ruleTransfer nr r.percent : ℤ) : ℚ)|) := by
        rw [habs]; linarith
      have hb : decide (0 < -|((ruleTransfer nr r.percent : ℤ) : ℚ)|) = false :=
        decide_eq_false hneg
      simp [rowFundOk, hb]
    have hdest : (pyStrip r.destination != "") = true := by
      have h1 := hc.1
      rw [ruleActive, Bool.and_eq_true] at h1
      have h2 := h1.1
      rw [ruleListed, Bool.and_eq_true] at h2
      exact h2.2
    have hin : rowFundOk date
        ⟨date, some |((ruleTransfer nr r.percent : ℤ) : ℚ)|, pyStrip r.destination,
          direction, "",
          pyStrip ((some ("Поступление в Фонд за " ++ date)).getD "Отчисление в Фонд"),
          artIn⟩ = true := by
      rw [rowFundOk]
      dsimp only
      have hdate : (pyStrip date == pyStrip date) = true := beq_self_eq_true _
      have hamt : decide (0 < |((ruleTransfer nr r.percent : ℤ) : ℚ)|) = true := by
        rw [habs]
        exact decide_eq_true htq
      have hmark : isInfixB markerIn.data
          (pyStrip (pyStrip ((some ("Поступление в Фонд за " ++ date)).getD
            "Отчисление в Фонд"))).data = true := by
        rw [show (some ("Поступление в Фонд за " ++ date)).getD "Отчисление в Фонд" =
          "Поступление в Фонд за " ++ date from rfl, pyStrip_idem, pyStrip, asString_data,
          isInfixB]
        exact decide_eq_true (markerIn_prefix_purpose date).isInfix
      have hwal : (pyStrip (pyStrip r.destination) != "") = true := by
        rw [pyStrip_idem]
        exact hdest
      rw [hdate, hamt, hwal, hmark]
      rw [Bool.or_true, Bool.true_and, Bool.and_true, Bool.and_true]
    rw [List.filter_cons_of_neg (by rw [hout]; exact Bool.false_ne_true),
      List.filter_cons_of_pos hin, List.filter_nil, List.map_cons, List.map_nil,
      amountOf]
    rw [show (⟨date, some |((ruleTransfer nr r.percent : ℤ) : ℚ)|, pyStrip r.destination,
      direction, "",
      pyStrip ((some ("Поступление в Фонд за " ++ date)).getD "Отчисление в Фонд"),
      artIn⟩ : RegRow).amount = some |((ruleTransfer nr r.percent : ℤ) : ℚ)| from rfl]
    rw [Option.getD_some, habs]
  · rw [ruleBlock, if_neg hc, if_neg hc]
    rfl

theorem loopRows_income_false {artIn : String} (hIn1 : artIn ≠ "")
    (hIn2 : pyStrip artIn = artIn) (date artOut direction : String) (nr : ℚ)
    (rules : List FundRule) :
    ∀ row ∈ loopRows date artOut artIn direction nr rules,
      rowIncomeOk artIn date row = false := by
  intro row hrow
  rw [loopRows] at hrow
  obtain ⟨block, hbmem, hrow2⟩ := List.mem_flatten.mp hrow
  obtain ⟨r, _, rfl⟩ := List.mem_map.mp hbmem
  exact ruleBlock_income_false hIn1 hIn2 date artOut direction nr r row hrow2

theorem loopRows_fund_sum (date artOut artIn direction : String) (nr : ℚ)
    (rules : List FundRule) :
    (((loopRows date artOut artIn direction nr rules).filter (rowFundOk date)).map
        amountOf).sum =
      ((((rules.filter ruleActive).map (transferPlus nr)).sum : ℤ) : ℚ) := by
  induction rules with
  | nil => simp [loopRows]
  | cons r rs ih =>
    rw [loopRows_cons, List.filter_append, List.map_append, List.sum_append, ih,
      ruleBlock_fund_filter]
    by_cases hc : ruleActive r = true ∧ 0 < ruleTransfer nr r.percent
    · rw [if_pos hc, List.filter_cons_of_pos hc.1, List.map_cons, List.sum_cons,
        List.sum_cons, transferPlus, max_eq_left (le_of_lt hc.2)]
      simp only [List.map_nil, List.sum_nil, add_zero, Int.cast_add]
    · rw [if_neg hc]
      by_cases hact : ruleActive r = true
      · have ht : ruleTransfer nr r.percent ≤ 0 := by
          by_contra hpos
          push_neg at hpos
          exact hc ⟨hact, hpos⟩
        rw [List.filter_cons_of_pos hact, List.map_cons, List.sum_cons, transferPlus,
          max_eq_right ht]
        simp
      · rw [List.filter_cons_of_neg (by simpa using hact)]
        simp

theorem drop_one_append {L extra : List RegRow} (hL : L ≠ []) :
    (L ++ extra).drop 1 = L.drop 1 ++ extra := by
  obtain ⟨b, t, rfl⟩ := List.exists_cons_of_ne_nil hL
  simp

theorem get_daily_income_append {L extra : List RegRow} {artIn date : String}
    (hL : L ≠ [])
    (hextra : ∀ row ∈ extra, rowIncomeOk artIn date row = false) :
    get_daily_income (L ++ extra) artIn date = get_daily_income L artIn date := by
  have hnil : extra.filter (rowIncomeOk artIn date) = [] :=
    List.filter_eq_nil_iff.mpr (fun row hr => by simp [hextra row hr])
  rw [get_daily_income, get_daily_income, drop_one_append hL, List.filter_append, hnil,
    List.append_nil]

theorem totalAlready_append {L extra : List RegRow} {date : String} (hL : L ≠ []) :
    totalAlready (L ++ extra) date =
      totalAlready L date + ((extra.filter (rowFundOk date)).map amountOf).sum := by
  rw [totalAlready_eq_sum, totalAlready_eq_sum, drop_one_append hL, List.filter_append,
    List.map_append, List.sum_append]

theorem ledger_ne_nil_of_income_pos {L : List RegRow} {artIn date : String}
    (h : 0 < get_daily_income L artIn date) : L ≠ [] := by
  intro h0
  rw [h0] at h
  simp [get_daily_income, round2_zero] at h

/-! The numeric core of the second-pass bound: clearing the divisions by the
active-percent sum `q`. -/

theorem second_pass_core (R A1 q : ℚ) (n : ℕ) (NR1 NR2 S S2 : ℚ)
    (hq0 : 0 < q) (hqle : q ≤ 100 * (n : ℚ)) (hn99 : (n : ℚ) ≤ 99)
    (h1 : R - A1 * 100 / q - 1 / 200 ≤ NR1)
    (h2 : NR1 * q / 100 - (n : ℚ) / 2 ≤ S)
    (h3 : NR2 ≤ R - (A1 + S) * 100 / q + 1 / 200)
    (h4 : S2 ≤ NR2 * q / 100 + (n : ℚ) / 2) :
    S2 < (n : ℚ) + 1 := by
  have hqne : q ≠ 0 := ne_of_gt hq0
  have hm1 : R * q / 100 - A1 - q / 20000 ≤ NR1 * q / 100 := by
    have h := mul_le_mul_of_nonneg_right h1
      (le_of_lt (by positivity : (0 : ℚ) < q / 100))
    calc R * q / 100 - A1 - q / 20000
        = (R - A1 * 100 / q - 1 / 200) * (q / 100) := by field_simp; ring
      _ ≤ NR1 * (q / 100) := h
      _ = NR1 * q / 100 := by ring
  have hm3 : NR2 * q / 100 ≤ R * q / 100 - A1 - S + q / 20000 := by
    have h := mul_le_mul_of_nonneg_right h3
      (le_of_lt (by positivity : (0 : ℚ) < q / 100))
    calc NR2 * q / 100 = NR2 * (q / 100) := by ring
      _ ≤ (R - (A1 + S) * 100 / q + 1 / 200) * (q / 100) := h
      _ = R * q / 100 - A1 - S + q / 20000 := by field_simp; ring
  linarith

/-! ## Claim C1: running the distribution pass twice (amended) -/

/-- C1 (amended): running `_run_funds_logic` twice in a row is not a no-op
(the per-rule half-up rounding and the 2-decimal back-calculation
`round(already * 100 / total_percent, 2)` let the second pass transfer again,
see the counterexample); what does hold is a bound: when every rule percent
lies in [0, 100] and at most 99 rules are active, the second pass transfers in
total at most one whole currency unit per active rule. -/
theorem fund_second_call_bounded (ledger : List RegRow) (rules : List FundRule)
    (date artOut artIn direction : String)
    (hIn1 : artIn ≠ "") (hIn2 : pyStrip artIn = artIn)
    (hp : ∀ r ∈ rules, 0 ≤ r.percent ∧ r.percent ≤ 100)
    (hn : (rules.filter ruleActive).length ≤ 99) :
    doneTotal (run_funds_logic
        (run_funds_logic ledger rules date artOut artIn direction).2
        rules date artOut artIn direction).1 ≤
      ((rules.filter ruleActive).length : ℤ) := by
  have hn0 : (0 : ℤ) ≤ ((rules.filter ruleActive).length : ℤ) := Int.ofNat_nonneg _
  by_cases hR : get_daily_income ledger artIn date ≤ 0
  · have hsnd1 : (run_funds_logic ledger rules date artOut artIn direction).2 =
        ledger := by
      simp only [run_funds_logic]
      rw [if_pos hR]
    have hfst1 : (run_funds_logic ledger rules date artOut artIn direction).1 =
        .noIncome := by
      simp only [run_funds_logic]
      rw [if_pos hR]
    rw [hsnd1, hfst1]
    simp only [doneTotal]
    exact hn0
  by_cases hE : rules.isEmpty = true
  · have hsnd1 : (run_funds_logic ledger rules date artOut artIn direction).2 =
        ledger := by
      simp only [run_funds_logic]
      rw [if_neg hR, if_pos hE]
    have hfst1 : (run_funds_logic ledger rules date artOut artIn direction).1 =
        .noRules := by
      simp only [run_funds_logic]
      rw [if_neg hR, if_pos hE]
    rw [hsnd1, hfst1]
    simp only [doneTotal]
    exact hn0
  by_cases hNR1 : newRevenueCode (get_daily_income ledger artIn date)
      (totalAlready ledger date) (totalPercent rules) ≤ 0
  · have hsnd1 : (run_funds_logic ledger rules date artOut artIn direction).2 =
        ledger := by
      simp only [run_funds_logic]
      rw [if_neg hR, if_neg hE, if_pos hNR1]
    have hfst1 : (run_funds_logic ledger rules date artOut artIn direction).1 =
        .alreadyDone := by
      simp only [run_funds_logic]
      rw [if_neg hR, if_neg hE, if_pos hNR1]
    rw [hsnd1, hfst1]
    simp only [doneTotal]
    exact hn0
  have hRpos : 0 < get_daily_income ledger artIn date := not_le.mp hR
  have hNR1pos : 0 < newRevenueCode (get_daily_income ledger artIn date)
      (totalAlready ledger date) (totalPercent rules) := not_le.mp hNR1
  have hL : ledger ≠ [] := ledger_ne_nil_of_income_pos hRpos
  have hsnd : (run_funds_logic ledger rules date artOut artIn direction).2 =
      ledger ++ loopRows date artOut artIn direction
        (newRevenueCode (get_daily_income ledger artIn date)
          (totalAlready ledger date) (totalPercent rules)) rules := by
    simp only [run_funds_logic]
    rw [if_neg hR, if_neg hE, if_neg hNR1, runFundsLoop_fst]
  rw [hsnd]
  have hR2 : get_daily_income (ledger ++ loopRows date artOut artIn direction
      (newRevenueCode (get_daily_income ledger artIn date)
        (totalAlready ledger date) (totalPercent rules)) rules) artIn date =
      get_daily_income ledger artIn date :=
    get_daily_income_append hL
      (loopRows_income_false hIn1 hIn2 date artOut direction _ rules)
  have hA2 : totalAlready (ledger ++ loopRows date artOut artIn direction
      (newRevenueCode (get_daily_income ledger artIn date)
        (totalAlready ledger date) (totalPercent rules)) rules) date =
      totalAlready ledger date +
        ((((rules.filter ruleActive).map (transferPlus
          (newRevenueCode (get_daily_income ledger artIn date)
            (totalAlready ledger date) (totalPercent rules)))).sum : ℤ) : ℚ) := by
    rw [totalAlready_append hL, loopRows_fund_sum]
  by_cases hNR2 : newRevenueCode (get_daily_income ledger artIn date)
      (totalAlready ledger date +
        ((((rules.filter ruleActive).map (transferPlus
          (newRevenueCode (get_daily_income ledger artIn date)
            (totalAlready ledger date) (totalPercent rules)))).sum : ℤ) : ℚ))
      (totalPercent rules) ≤ 0
  · have hfst : (run_funds_logic (ledger ++ loopRows date artOut artIn direction
        (newRevenueCode (get_daily_income ledger artIn date)
          (totalAlready ledger date) (totalPercent rules)) rules)
        rules date artOut artIn direction).1 = .alreadyDone := by
      simp only [run_funds_logic]
      rw [hR2, hA2, if_neg hR, if_neg hE, if_pos hNR2]
    rw [hfst]
    simp only [doneTotal]
    exact hn0
  · have hfst : (run_funds_logic (ledger ++ loopRows date artOut artIn direction
        (newRevenueCode (get_daily_income ledger artIn date)
          (totalAlready ledger date) (totalPercent rules)) rules)
        rules date artOut artIn direction).1 =
        .done (loopTransfers (newRevenueCode (get_daily_income ledger artIn date)
          (totalAlready ledger date +
            ((((rules.filter ruleActive).map (transferPlus
              (newRevenueCode (get_daily_income ledger artIn date)
                (totalAlready ledger date) (totalPercent rules)))).sum : ℤ) : ℚ))
          (totalPercent rules)) rules) := by
      simp only [run_funds_logic]
      rw [hR2, hA2, if_neg hR, if_neg hE, if_neg hNR2, runFundsLoop_snd]
    rw [hfst]
    simp only [doneTotal]
    rw [loopTransfers_sum]
    by_cases hact0 : rules.filter ruleActive = []
    · rw [hact0]
      simp
    · have hp0 : ∀ r ∈ rules, 0 ≤ r.percent := fun r hr => (hp r hr).1
      have hPq : totalPercent rules =
          ((rules.filter ruleActive).map FundRule.percent).sum := by
        rw [totalPercent_eq_active rules hp0, totalPercentSpec]
      rw [hPq] at hNR1pos hNR2 ⊢
      have hNR2pos := not_le.mp hNR2
      have hpA : ∀ r ∈ rules.filter ruleActive, 0 < r.percent :=
        fun r hr => mem_active_percent_pos hr
      have hple : ∀ r ∈ rules.filter ruleActive, r.percent ≤ 100 :=
        fun r hr => (hp r (List.mem_filter.mp hr).1).2
      have hq0 : 0 < ((rules.filter ruleActive).map FundRule.percent).sum :=
        sum_percent_pos _ hpA hact0
      have hqle : ((rules.filter ruleActive).map FundRule.percent).sum ≤
          100 * ((rules.filter ruleActive).length : ℚ) :=
        sum_percent_le_hundred_mul _ hple
      have hn99 : (((rules.filter ruleActive).length : ℕ) : ℚ) ≤ 99 := by
        exact_mod_cast hn
      have hRgrid : centGrid (get_daily_income ledger artIn date) := by
        rw [get_daily_income]
        exact centGrid_round2 _
      have hA1 : 0 ≤ totalAlready ledger date := totalAlready_nonneg ledger date
      have hS0 : (0 : ℤ) ≤ ((rules.filter ruleActive).map (transferPlus
          (newRevenueCode (get_daily_income ledger artIn date)
            (totalAlready ledger date)
            (((rules.filter ruleActive).map FundRule.percent).sum)))).sum := by
        apply List.sum_nonneg
        intro x hx
        obtain ⟨r, _, rfl⟩ := List.mem_map.mp hx
        exact transferPlus_nonneg _ _
      have hS0q : (0 : ℚ) ≤ ((((rules.filter ruleActive).map (transferPlus
          (newRevenueCode (get_daily_income ledger artIn date)
            (totalAlready ledger date)
            (((rules.filter ruleActive).map FundRule.percent).sum)))).sum : ℤ) : ℚ) := by
        exact_mod_cast hS0
      have hA2n : 0 ≤ totalAlready ledger date +
          ((((rules.filter ruleActive).map (transferPlus
            (newRevenueCode (get_daily_income ledger artIn date)
              (totalAlready ledger date)
              (((rules.filter ruleActive).map FundRule.percent).sum)))).sum : ℤ) : ℚ) := by
        linarith
      have hb1 := (newRevenueCode_bounds hRgrid hA1 hq0).1
      have hb2 := (sum_transferPlus_bounds _ hNR1pos (rules.filter ruleActive) hpA).1
      have hb3 := (newRevenueCode_bounds hRgrid hA2n hq0).2
      have hb4 := (sum_transferPlus_bounds _ hNR2pos (rules.filter ruleActive) hpA).2
      have hlt := second_pass_core (get_daily_income ledger artIn date)
        (totalAlready ledger date)
        (((rules.filter ruleActive).map FundRule.percent).sum)
        ((rules.filter ruleActive).length)
        _ _ _ _ hq0 hqle hn99 hb1 hb2 hb3 hb4
      rw [← Int.lt_add_one_iff]
      exact_mod_cast hlt

/-- Witness: the amended second-pass bound instantiated at the concrete
two-rule example (3% and 1%, inflow 49): the second pass transfers at most 2. -/
theorem fund_second_call_bounded_witness :
    doneTotal (run_funds_logic
        (run_funds_logic exLedger exRules "07.10.2025" exArtOut exArtIn "Осн").2
        exRules "07.10.2025" exArtOut exArtIn "Осн").1 ≤
      ((exRules.filter ruleActive).length : ℤ) :=
  fund_second_call_bounded exLedger exRules "07.10.2025" exArtOut exArtIn "Осн"
    (by decide) (by decide) (by decide) (by decide)

end DDS
